import Mathlib

/-!
Shallow embedding of the FastPATH tile-serving core (Rust sources under
src/fastpath_core/src) and proofs about it.

Modelling conventions:
* machine integers (u16/u32/u64/usize) are `Nat`; where the source checks a
  conversion bound (`try_into`, `checked_add`) the embedding carries the bound
  as an explicit hypothesis or an explicit test;
* `f64` values in viewport geometry are embedded as `ℚ`: the operations used
  by the source (add, sub, mul, div by nonzero, abs, signum, comparisons,
  floor, ceil) are exact on the inputs the claims are about, so `ℚ` evaluates
  them without rounding;
* stateful code becomes explicit state passing: each scheduler operation maps
  a `SchedState` to a result together with the next `SchedState`, and the
  worker body `load_tile_for_prefetch` is modelled as running atomically
  (without interleaving), so every re-read of `generation` or
  `active_slide_id` inside one call sees the same value;
* filesystem and codec effects are oracles passed in as functions
  (`Disk`, `TileEnv`): reads may fail via `Except`.
-/

namespace FastPATH

/-! ## Data model (cache.rs, decoder.rs, format.rs) -/

/-- Tile coordinate key (cache.rs `TileCoord`). -/
structure TileCoord where
  level : Nat
  col : Nat
  row : Nat
  deriving DecidableEq, Repr

/-- L2 key carrying the slide id (cache.rs `SlideTileCoord`). -/
structure SlideTileCoord where
  slide_id : Nat
  level : Nat
  col : Nat
  row : Nat
  deriving DecidableEq, Repr

/-- Decoded RGB tile (decoder.rs `TileData`); `data` is the byte buffer. -/
structure TileData where
  data : List Nat
  width : Nat
  height : Nat
  deriving DecidableEq, Repr

/-- Compressed JPEG tile (decoder.rs `CompressedTileData`). -/
structure CompressedTileData where
  jpeg_bytes : List Nat
  width : Nat
  height : Nat
  deriving DecidableEq, Repr

/-- Error kinds (error.rs `TileError`), message payloads kept abstractly. -/
inductive TileErr where
  | io : TileErr
  | decode : String → TileErr
  | validation : String → TileErr
  deriving DecidableEq, Repr

/-- Pyramid level description (format.rs `LevelInfo`). -/
structure LevelInfo where
  level : Nat
  downsample : Nat
  cols : Nat
  rows : Nat
  deriving DecidableEq, Repr

/-- Slide metadata (format.rs `SlideMetadata`). -/
structure SlideMetadata where
  dimensions : Nat × Nat
  tile_size : Nat
  levels : List LevelInfo
  target_mpp : ℚ
  target_magnification : ℚ
  deriving DecidableEq, Repr

/-- format.rs `SlideMetadata::get_level`. -/
def SlideMetadata.get_level (m : SlideMetadata) (level : Nat) : Option LevelInfo :=
  m.levels.find? (fun l => decide (l.level = level))

/-- format.rs `SlideMetadata::num_levels`. -/
def SlideMetadata.num_levels (m : SlideMetadata) : Nat :=
  m.levels.length

/-- The post-`validate()` state of metadata (format.rs `SlideMetadata::validate`
followed by the sort): positive dimensions and tile size, nonempty level list
sorted strictly by level number (sorting plus the adjacent-duplicate check),
and positive downsample/cols/rows on every level. -/
def SlideMetadata.Validated (m : SlideMetadata) : Prop :=
  0 < m.dimensions.1 ∧ 0 < m.dimensions.2 ∧ 0 < m.tile_size ∧
  m.levels ≠ [] ∧
  m.levels.Chain' (fun a b => a.level < b.level) ∧
  ∀ l ∈ m.levels, 0 < l.downsample ∧ 0 < l.cols ∧ 0 < l.rows

instance (m : SlideMetadata) : Decidable m.Validated := by
  unfold SlideMetadata.Validated
  infer_instance

/-! ## Viewport prefetch planner (prefetch.rs) -/

/-- prefetch.rs `Viewport`. -/
structure Viewport where
  x : ℚ
  y : ℚ
  width : ℚ
  height : ℚ
  scale : ℚ
  velocity_x : ℚ
  velocity_y : ℚ
  deriving DecidableEq, Repr

/-- prefetch.rs `PrefetchConfig`. -/
structure PrefetchConfig where
  tiles_ahead : Nat
  tiles_around : Nat
  prefetch_levels : Bool
  min_velocity : ℚ
  deriving DecidableEq, Repr

/-- prefetch.rs `PrefetchConfig::default`. -/
def PrefetchConfig.defaultConfig : PrefetchConfig :=
  { tiles_ahead := 2, tiles_around := 1, prefetch_levels := true, min_velocity := 50 }

/-- Rust `f64::signum` on the values reachable here: 1 for nonnegative
(`signum(+0.0) = 1.0`), -1 for negative. -/
def fsignum (q : ℚ) : ℚ :=
  if 0 ≤ q then 1 else -1

/-- prefetch.rs `PrefetchCalculator::level_for_scale`: filter levels with
`downsample <= 1/scale`, take the highest level number, default 0. -/
def level_for_scale (m : SlideMetadata) (scale : ℚ) : Nat :=
  (((m.levels.filter (fun l => decide ((l.downsample : ℚ) ≤ 1 / scale))).map
    (fun l => l.level)).max?).getD 0

/-- prefetch.rs `PrefetchCalculator::tiles_in_rect`. The source computes
`((x / lts).floor() as i32).max(0) as u32` for the start columns (an `f64`
floor, clamped below by 0) and `((x + w) / lts).ceil() as u32` (an `f64`
ceil whose cast saturates negative values to 0), capped at `cols`/`rows`;
`Int.toNat` performs exactly that clamping. -/
def tiles_in_rect (tile_size : Nat) (li : LevelInfo) (x y width height : ℚ) :
    List TileCoord :=
  let lts : ℚ := ((tile_size * li.downsample : Nat) : ℚ)
  let col_start : Nat := (max (Int.floor (x / lts)) 0).toNat
  let col_end : Nat := min (Int.ceil ((x + width) / lts)).toNat li.cols
  let row_start : Nat := (max (Int.floor (y / lts)) 0).toNat
  let row_end : Nat := min (Int.ceil ((y + height) / lts)).toNat li.rows
  (List.range' row_start (row_end - row_start)).flatMap (fun row =>
    (List.range' col_start (col_end - col_start)).map (fun col =>
      TileCoord.mk li.level col row))

/-- prefetch.rs `PrefetchCalculator::visible_tiles`. -/
def visible_tiles (m : SlideMetadata) (viewport : Viewport) : List TileCoord :=
  match m.get_level (level_for_scale m viewport.scale) with
  | some level_info =>
      tiles_in_rect m.tile_size level_info viewport.x viewport.y
        viewport.width viewport.height
  | none => []

/-- prefetch.rs `PrefetchCalculator::extended_viewport`. Returns
`(x, y, w, h)` of the extended rectangle. -/
def extended_viewport (cfg : PrefetchConfig) (viewport : Viewport) (tile_size : Nat) :
    ℚ × ℚ × ℚ × ℚ :=
  let ts : ℚ := (tile_size : ℚ)
  let tiles_ahead : ℚ := (cfg.tiles_ahead : ℚ)
  let base_ext : ℚ := ts * (cfg.tiles_around : ℚ)
  let vel : ℚ × ℚ :=
    if |viewport.velocity_x| > cfg.min_velocity ∨ |viewport.velocity_y| > cfg.min_velocity then
      let ext_x : ℚ :=
        if |viewport.velocity_x| > cfg.min_velocity then
          fsignum viewport.velocity_x * ts * tiles_ahead
        else 0
      let ext_y : ℚ :=
        if |viewport.velocity_y| > cfg.min_velocity then
          fsignum viewport.velocity_y * ts * tiles_ahead
        else 0
      (ext_x, ext_y)
    else (0, 0)
  (viewport.x - base_ext + min vel.1 0,
   viewport.y - base_ext + min vel.2 0,
   viewport.width + base_ext * 2 + |vel.1|,
   viewport.height + base_ext * 2 + |vel.2|)

/-- Push a coordinate unless it is already collected or cached (the repeated
`if !tiles.contains(&coord) && !cached(&coord) { tiles.push(coord) }` pattern
of prefetch.rs `prefetch_tiles`). -/
def pushNew (cached : TileCoord → Bool) (acc : List TileCoord) (c : TileCoord) :
    List TileCoord :=
  if c ∉ acc ∧ ¬ cached c then acc ++ [c] else acc

/-- prefetch.rs `PrefetchCalculator::prefetch_tiles`: visible tiles first,
then the extended-viewport tiles, then (when `prefetch_levels`) the level
above over the full viewport and the level below over a `w/4 × h/4`
center box, all deduplicated and filtered by `cached`. -/
def prefetch_tiles (cfg : PrefetchConfig) (m : SlideMetadata) (viewport : Viewport)
    (cached : TileCoord → Bool) : List TileCoord :=
  match m.get_level (level_for_scale m viewport.scale) with
  | none => []
  | some level_info =>
    let level := level_for_scale m viewport.scale
    let visible := visible_tiles m viewport
    let ext := extended_viewport cfg viewport m.tile_size
    let extended_tiles :=
      tiles_in_rect m.tile_size level_info ext.1 ext.2.1 ext.2.2.1 ext.2.2.2
    let t1 := visible.filter (fun c => ¬ cached c)
    let t2 := extended_tiles.foldl (pushNew cached) t1
    let t3 :=
      if cfg.prefetch_levels ∧ level + 1 < m.num_levels then
        match m.get_level (level + 1) with
        | some up_level =>
            (tiles_in_rect m.tile_size up_level viewport.x viewport.y
              viewport.width viewport.height).foldl (pushNew cached) t2
        | none => t2
      else t2
    if cfg.prefetch_levels ∧ 0 < level then
      match m.get_level (level - 1) with
      | some down_level =>
          let center_x := viewport.x + viewport.width / 2
          let center_y := viewport.y + viewport.height / 2
          let small_width := viewport.width / 4
          let small_height := viewport.height / 4
          (tiles_in_rect m.tile_size down_level
            (center_x - small_width / 2) (center_y - small_height / 2)
            small_width small_height).foldl (pushNew cached) t3
      | none => t3
    else t3

/-- The extended-viewport rectangle as the spec sentence words it, with the
threshold read as the claim states it: a base ring of `tiles_around`
tile-widths on all sides, plus `tiles_ahead` tile-widths on the side an axis
is moving toward whenever that axis's absolute velocity is AT LEAST
`min_velocity` (so `velocity ≥ min_velocity` extends the right/bottom edge and
`velocity ≤ -min_velocity` extends the left/top edge). -/
def claimed_extended_viewport (cfg : PrefetchConfig) (v : Viewport) (tile_size : Nat) :
    ℚ × ℚ × ℚ × ℚ :=
  let ts : ℚ := (tile_size : ℚ)
  let base : ℚ := ts * (cfg.tiles_around : ℚ)
  let ahead : ℚ := ts * (cfg.tiles_ahead : ℚ)
  let left : ℚ := v.x - base - (if v.velocity_x ≤ -cfg.min_velocity then ahead else 0)
  let top : ℚ := v.y - base - (if v.velocity_y ≤ -cfg.min_velocity then ahead else 0)
  let right : ℚ := v.x + v.width + base + (if cfg.min_velocity ≤ v.velocity_x then ahead else 0)
  let bottom : ℚ := v.y + v.height + base + (if cfg.min_velocity ≤ v.velocity_y then ahead else 0)
  (left, top, right - left, bottom - top)

/-- The extended-viewport rectangle as the spec sentence words it but with the
strict threshold the code actually uses: the directional extension fires only
when the axis's absolute velocity is STRICTLY ABOVE `min_velocity`. -/
def amended_extended_viewport (cfg : PrefetchConfig) (v : Viewport) (tile_size : Nat) :
    ℚ × ℚ × ℚ × ℚ :=
  let ts : ℚ := (tile_size : ℚ)
  let base : ℚ := ts * (cfg.tiles_around : ℚ)
  let ahead : ℚ := ts * (cfg.tiles_ahead : ℚ)
  let left : ℚ := v.x - base - (if v.velocity_x < -cfg.min_velocity then ahead else 0)
  let top : ℚ := v.y - base - (if v.velocity_y < -cfg.min_velocity then ahead else 0)
  let right : ℚ := v.x + v.width + base + (if cfg.min_velocity < v.velocity_x then ahead else 0)
  let bottom : ℚ := v.y + v.height + base + (if cfg.min_velocity < v.velocity_y then ahead else 0)
  (left, top, right - left, bottom - top)

/-- The metadata of the claim's concrete level-selection scenario: downsamples
1, 2, 4 at levels 0, 1, 2 (grid sizes as in the source's test metadata). -/
def exampleMetadata : SlideMetadata :=
  { dimensions := (10000, 10000), tile_size := 512,
    levels := [⟨0, 1, 20, 20⟩, ⟨1, 2, 10, 10⟩, ⟨2, 4, 5, 5⟩],
    target_mpp := 1/2, target_magnification := 20 }

/-- Validated metadata whose only level is numbered 1, so the `level = 0`
fallback of `level_for_scale` names a level that does not exist. -/
def gapMetadata : SlideMetadata :=
  { dimensions := (100, 100), tile_size := 16,
    levels := [⟨1, 1, 4, 4⟩],
    target_mpp := 1/2, target_magnification := 20 }

/-! ## Cache (cache.rs) and scheduler (scheduler.rs, slide_pool.rs) -/

/-- cache.rs `TrackedCache`: entry association list plus hit/miss counters.
The moka internals (TinyLFU capacity eviction and its pending-maintenance
queues) are not modelled: `insert` stores unconditionally, which is the
library's behaviour while capacity is not exceeded, and `stats`/`clear` need
no maintenance drain. -/
structure TrackedCache (K V : Type) where
  entries : List (K × V)
  hits : Nat
  misses : Nat
  deriving DecidableEq, Repr

variable {K V : Type}

/-- cache.rs `TrackedCache::get`: lookup plus the hit/miss counter update. -/
def TrackedCache.getC [DecidableEq K] (c : TrackedCache K V) (k : K) :
    Option V × TrackedCache K V :=
  match c.entries.find? (fun p => decide (p.1 = k)) with
  | some p => (some p.2, { c with hits := c.hits + 1 })
  | none => (none, { c with misses := c.misses + 1 })

/-- cache.rs `TrackedCache::insert` (replacing any entry with the same key). -/
def TrackedCache.insertC [DecidableEq K] (c : TrackedCache K V) (k : K) (v : V) :
    TrackedCache K V :=
  { c with entries := (k, v) :: c.entries.filter (fun p => decide (¬ p.1 = k)) }

/-- cache.rs `TrackedCache::contains` (no stats update). -/
def TrackedCache.containsC [DecidableEq K] (c : TrackedCache K V) (k : K) : Bool :=
  (c.entries.find? (fun p => decide (p.1 = k))).isSome

/-- cache.rs `TrackedCache::clear`: drop all entries and reset the stats. -/
def TrackedCache.clearC (_c : TrackedCache K V) : TrackedCache K V :=
  { entries := [], hits := 0, misses := 0 }

/-- cache.rs `TrackedCache::reset_stats`. -/
def TrackedCache.resetStats (c : TrackedCache K V) : TrackedCache K V :=
  { c with hits := 0, misses := 0 }

/-- slide_pool.rs `SlideEntry`: metadata plus the path resolver (which holds
just the slide directory). -/
structure SlideEntry where
  metadata : SlideMetadata
  dir : String
  deriving DecidableEq, Repr

/-- scheduler.rs `TileScheduler` mutable state: L1 cache, L2 cache, slide
pool, current slide slot, in-flight set, generation counter and active slide
id (0 = none). -/
structure SchedState where
  cache : TrackedCache TileCoord TileData
  l2_cache : TrackedCache SlideTileCoord CompressedTileData
  pool : List (Nat × SlideEntry)
  slide : Option SlideEntry
  in_flight : List TileCoord
  generation : Nat
  active_slide_id : Nat
  deriving DecidableEq, Repr

/-- scheduler.rs `TileScheduler::new`: empty caches and pool, no slide,
generation 0, active slide id 0. -/
def sched_new : SchedState :=
  { cache := ⟨[], 0, 0⟩, l2_cache := ⟨[], 0, 0⟩, pool := [], slide := none,
    in_flight := [], generation := 0, active_slide_id := 0 }

/-- Filesystem oracle for `load`: `path_exists` models `PathBuf::exists`,
`canonicalize` the fallible `PathBuf::canonicalize`, `slide_id_of` the
composition `compute_slide_id(canonical.to_string_lossy().to_lowercase())`,
and `load_metadata` models `SlideMetadata::load` (file read + JSON parse +
validate) on a slide directory. -/
structure Disk where
  path_exists : String → Bool
  canonicalize : String → Option String
  slide_id_of : String → Nat
  load_metadata : String → Except TileErr SlideMetadata

/-- Codec/file oracle for tile work: `read_jpeg` models decoder.rs
`read_jpeg_bytes` (file read + header probe) and `decode` models
`decode_jpeg_bytes`. -/
structure TileEnv where
  read_jpeg : String → Except TileErr CompressedTileData
  decode : CompressedTileData → Except TileErr TileData

/-- slide_pool.rs `SlidePool::load_or_get`: return the cached entry, or load
metadata from disk, build the entry and insert it. -/
def pool_load_or_get (d : Disk) (pool : List (Nat × SlideEntry)) (slide_id : Nat)
    (dir : String) : Except TileErr (SlideEntry × List (Nat × SlideEntry)) :=
  match pool.find? (fun p => decide (p.1 = slide_id)) with
  | some p => .ok (p.2, pool)
  | none =>
    match d.load_metadata dir with
    | .error e => .error e
    | .ok m => .ok (⟨m, dir⟩, pool ++ [(slide_id, ⟨m, dir⟩)])

/-- scheduler.rs `TileScheduler::load`: existence check, canonicalize,
compute the slide id, intern in the pool; then bump the generation, clear the
in-flight set, clear L1 (L2 untouched), install the entry and store the
active slide id. Every failing step returns before any state mutation. -/
def sched_load (d : Disk) (s : SchedState) (path : String) :
    Except TileErr Unit × SchedState :=
  if ¬ d.path_exists path then (.error .io, s)
  else
    match d.canonicalize path with
    | none => (.error .io, s)
    | some canonical =>
      let slide_id := d.slide_id_of canonical
      match pool_load_or_get d s.pool slide_id path with
      | .error e => (.error e, s)
      | .ok (entry, pool2) =>
        (.ok (), { s with
          pool := pool2,
          generation := s.generation + 1,
          in_flight := [],
          cache := s.cache.clearC,
          slide := some entry,
          active_slide_id := slide_id })

/-- scheduler.rs `TileScheduler::close`: bump generation, clear in-flight,
drop the slide, clear L1 (L2 untouched), zero the active slide id. -/
def sched_close (s : SchedState) : SchedState :=
  { s with
    generation := s.generation + 1,
    in_flight := [],
    slide := none,
    cache := s.cache.clearC,
    active_slide_id := 0 }

/-- scheduler.rs `TileScheduler::clear_in_flight_for_generation`: remove the
coordinate only when the generation still matches. -/
def clear_in_flight_for_generation (s : SchedState) (coord : TileCoord)
    (batch_generation : Nat) : SchedState :=
  if s.generation = batch_generation then
    { s with in_flight := s.in_flight.filter (fun c => decide (¬ c = coord)) }
  else s

/-- The disk path of scheduler.rs `TileScheduler::load_tile_for_prefetch`
(after the L1/L2 fast paths): generation check 2 under the in-flight lock,
claim the coordinate, read from disk, L2 insert guarded by re-reading
`active_slide_id`, decode, generation check 3 before the L1 insert, and
in-flight cleanup on every exit after the claim. -/
def prefetch_miss_path (env : TileEnv) (s : SchedState) (coord : TileCoord)
    (path : String) (batch_generation slide_id : Nat) :
    Option TileData × SchedState :=
  if s.generation ≠ batch_generation then (none, s)
  else if coord ∈ s.in_flight then (none, s)
  else
    let s1 : SchedState := { s with in_flight := coord :: s.in_flight }
    match env.read_jpeg path with
    | .error _ => (none, clear_in_flight_for_generation s1 coord batch_generation)
    | .ok compressed =>
      let s2 : SchedState :=
        if slide_id ≠ 0 ∧ s1.active_slide_id = slide_id then
          { s1 with l2_cache :=
              (s1.l2_cache.insertC ⟨slide_id, coord.level, coord.col, coord.row⟩ compressed) }
        else s1
      match env.decode compressed with
      | .ok tile =>
        if s2.generation ≠ batch_generation then
          (none, clear_in_flight_for_generation s2 coord batch_generation)
        else
          (some tile, clear_in_flight_for_generation
            { s2 with cache := s2.cache.insertC coord tile } coord batch_generation)
      | .error _ => (none, clear_in_flight_for_generation s2 coord batch_generation)

/-- scheduler.rs `TileScheduler::load_tile_for_prefetch`, modelled as one
atomic (non-interleaved) run: capture `active_slide_id`, generation check 1,
L1 fast path, L2 fast path with generation checks before and after decode,
then the disk path. -/
def load_tile_for_prefetch (env : TileEnv) (s : SchedState) (coord : TileCoord)
    (path : String) (batch_generation : Nat) : Option TileData × SchedState :=
  let slide_id := s.active_slide_id
  if s.generation ≠ batch_generation then (none, s)
  else
    let g1 := s.cache.getC coord
    match g1.1 with
    | some tile => (some tile, { s with cache := g1.2 })
    | none =>
      let sA : SchedState := { s with cache := g1.2 }
      if slide_id ≠ 0 then
        let g2 := sA.l2_cache.getC ⟨slide_id, coord.level, coord.col, coord.row⟩
        let sB : SchedState := { sA with l2_cache := g2.2 }
        match g2.1 with
        | some compressed =>
          if sB.generation ≠ batch_generation then (none, sB)
          else
            match env.decode compressed with
            | .ok tile =>
              if sB.generation ≠ batch_generation then (none, sB)
              else (some tile, { sB with cache := sB.cache.insertC coord tile })
            | .error _ => prefetch_miss_path env sB coord path batch_generation slide_id
        | none => prefetch_miss_path env sB coord path batch_generation slide_id
      else prefetch_miss_path env sA coord path batch_generation slide_id

/-- scheduler.rs `MAX_VISIBLE_TILES`. -/
def MAX_VISIBLE_TILES : Nat := 256

/-- scheduler.rs `EXTENDED_TILE_BUDGET`. -/
def EXTENDED_TILE_BUDGET : Nat := 32

/-- The batch-assembly loop of scheduler.rs `prefetch_for_viewport`: seed with
the visible uncached tiles capped at `MAX_VISIBLE_TILES`, then append
candidates from the planner output, skipping ones already admitted, until
`visible_count + extended_budget` tiles are admitted, where
`extended_budget = EXTENDED_TILE_BUDGET.saturating_sub(min visible_count
EXTENDED_TILE_BUDGET)`. -/
def dispatch_tiles (visible_uncached all_tiles : List TileCoord) : List TileCoord :=
  let visible_count := min visible_uncached.length MAX_VISIBLE_TILES
  let extended_budget := EXTENDED_TILE_BUDGET - min visible_count EXTENDED_TILE_BUDGET
  all_tiles.foldl
    (fun acc coord =>
      if visible_count + extended_budget ≤ acc.length then acc
      else if coord ∈ acc then acc
      else acc ++ [coord])
    (visible_uncached.take MAX_VISIBLE_TILES)

/-- scheduler.rs `prefetch_for_viewport` up to the point the batch is handed
to the worker pool: visible tiles not in L1, the planner output, and the
batch assembly. -/
def prefetch_plan (cfg : PrefetchConfig) (m : SlideMetadata) (v : Viewport)
    (l1contains : TileCoord → Bool) : List TileCoord :=
  dispatch_tiles ((visible_tiles m v).filter (fun c => ¬ l1contains c))
    (prefetch_tiles cfg m v l1contains)

/-- A disk oracle on which `load` succeeds everywhere. -/
def okDisk : Disk :=
  { path_exists := fun _ => true, canonicalize := fun p => some p,
    slide_id_of := fun _ => 1, load_metadata := fun _ => .ok exampleMetadata }

/-- A disk oracle with no paths at all, so `load` fails up front. -/
def absentDisk : Disk :=
  { path_exists := fun _ => false, canonicalize := fun _ => none,
    slide_id_of := fun _ => 1, load_metadata := fun _ => .error .io }

/-- A tile oracle whose reads and decodes always fail. -/
def failEnv : TileEnv :=
  { read_jpeg := fun _ => .error .io, decode := fun _ => .error (.decode "bad") }

/-! ## Tile container (pack.rs) -/

/-- pack.rs `LEVEL_MAGIC`: the bytes of "FPLIDX1" followed by a NUL. -/
def LEVEL_MAGIC : List Nat := [0x46, 0x50, 0x4C, 0x49, 0x44, 0x58, 0x31, 0x00]

/-- pack.rs `LEVEL_VERSION`. -/
def LEVEL_VERSION : Nat := 1

/-- pack.rs `LEVEL_HEADER_SIZE`. -/
def LEVEL_HEADER_SIZE : Nat := 16

/-- pack.rs `LEVEL_ENTRY_SIZE`. -/
def LEVEL_ENTRY_SIZE : Nat := 12

/-- pack.rs `TileEntry`. -/
structure TileEntry where
  offset : Nat
  length : Nat
  deriving DecidableEq, Repr

/-- pack.rs `LevelPack` minus the file handle: the parsed index fields. -/
structure ParsedLevel where
  level : Nat
  cols : Nat
  rows : Nat
  entries : List TileEntry
  pack_len : Nat
  deriving DecidableEq, Repr

/-- Little-endian decode of a byte slice (`uN::from_le_bytes`). -/
def leNum (bs : List Nat) : Nat :=
  bs.foldr (fun b acc => b + 256 * acc) 0

/-- Little-endian encoding of `n` in `w` bytes (`uN::to_le_bytes`). -/
def toLE : Nat → Nat → List Nat
  | 0, _ => []
  | w + 1, n => (n % 256) :: toLE w (n / 256)

/-- The entry-table loop of pack.rs `LevelPack::parse`: read `count` entries
of 12 bytes each — an 8-byte offset then a 4-byte length — advancing the
cursor by 12. -/
def readEntries : List Nat → Nat → List TileEntry
  | _, 0 => []
  | bs, n + 1 =>
    ⟨leNum (bs.take 8), leNum ((bs.drop 8).take 4)⟩ :: readEntries (bs.drop 12) n

/-- pack.rs `LevelPack::parse`. The u64 `checked_mul` overflow branch on
`cols·rows·12` is omitted: `cols` and `rows` come from u16 fields, so the
product is below 2^36 and that branch is unreachable in the source. -/
def LevelPack.parse (level : Nat) (idx_bytes : List Nat) (pack_len : Nat) :
    Except TileErr ParsedLevel :=
  if idx_bytes.length < LEVEL_HEADER_SIZE then
    .error (.validation "idx too small")
  else if idx_bytes.take 8 ≠ LEVEL_MAGIC then
    .error (.validation "idx magic mismatch")
  else if leNum ((idx_bytes.drop 8).take 4) ≠ LEVEL_VERSION then
    .error (.validation "unsupported idx version")
  else if leNum ((idx_bytes.drop 12).take 2) = 0 ∨
      leNum ((idx_bytes.drop 14).take 2) = 0 then
    .error (.validation "idx has zero cols or rows")
  else if idx_bytes.length < LEVEL_HEADER_SIZE +
      leNum ((idx_bytes.drop 12).take 2) * leNum ((idx_bytes.drop 14).take 2) *
        LEVEL_ENTRY_SIZE then
    .error (.validation "idx missing entry table")
  else
    .ok ⟨level, leNum ((idx_bytes.drop 12).take 2), leNum ((idx_bytes.drop 14).take 2),
      readEntries (idx_bytes.drop LEVEL_HEADER_SIZE)
        (leNum ((idx_bytes.drop 12).take 2) * leNum ((idx_bytes.drop 14).take 2)),
      pack_len⟩

/-- pack.rs `PackTileRef`. -/
structure PackTileRef where
  level : Nat
  offset : Nat
  length : Nat
  deriving DecidableEq, Repr

/-- One opened level of a `TilePack`: the parsed index together with the
contents of its `.pack` file (the model of the shared file handle; reads are
positional slices of these bytes). -/
structure LoadedLevel where
  parsed : ParsedLevel
  packBytes : List Nat
  deriving DecidableEq, Repr

/-- pack.rs `TilePack::find_level`. -/
def TilePack.find_level (levels : List LoadedLevel) (lvl : Nat) : Option LoadedLevel :=
  levels.find? (fun info => decide (info.parsed.level = lvl))

/-- pack.rs `TilePack::tile_ref`: level lookup, grid bound check, row-major
entry lookup, and the `length == 0` missing-tile convention. -/
def TilePack.tile_ref (levels : List LoadedLevel) (level col row : Nat) :
    Option PackTileRef :=
  match TilePack.find_level levels level with
  | none => none
  | some info =>
    if col ≥ info.parsed.cols ∨ row ≥ info.parsed.rows then none
    else
      match info.parsed.entries.get? (row * info.parsed.cols + col) with
      | none => none
      | some entry =>
        if entry.length = 0 then none
        else some ⟨level, entry.offset, entry.length⟩

/-- pack.rs `TilePack::read_tile_bytes`: zero-length guard, level lookup,
`offset + length ≤ pack_len` bound check, then an exact positional read
(`read_at`), modelled as the slice of the pack bytes. -/
def TilePack.read_tile_bytes (levels : List LoadedLevel) (tr : PackTileRef) :
    Except TileErr (List Nat) :=
  if tr.length = 0 then .error (.validation "zero-length tile")
  else
    match TilePack.find_level levels tr.level with
    | none => .error (.validation "unknown level")
    | some info =>
      if info.parsed.pack_len < tr.offset + tr.length then
        .error (.validation "tile byte range exceeds pack size")
      else
        .ok ((info.packBytes.drop tr.offset).take tr.length)

/-- Row-major grid enumeration of the packer's `for row … for col` loops, as
(col, row) pairs. -/
def gridCells (cols rows : Nat) : List (Nat × Nat) :=
  (List.range rows).flatMap (fun row => (List.range cols).map (fun col => (col, row)))

/-- The per-cell loop of pack.rs `pack_dzsave_tiles` for one level: walk the
grid cells with the running `pack_offset`, producing the index entries and
the concatenated pack payload. A missing tile file writes entry (0, 0) and no
payload; a present file of bytes `d` writes entry (offset, d.length) and
appends `d`. `tiles` is the tile-file lookup (the prescanned directory). -/
def packCells (tiles : Nat → Nat → Option (List Nat)) :
    List (Nat × Nat) → Nat → List TileEntry × List Nat
  | [], _ => ([], [])
  | (col, row) :: rest, off =>
    match tiles col row with
    | none =>
      let r := packCells tiles rest off
      (⟨0, 0⟩ :: r.1, r.2)
    | some d =>
      let r := packCells tiles rest (off + d.length)
      (⟨off, d.length⟩ :: r.1, d ++ r.2)

/-- The index-entry byte encoding the packer writes: 8-byte LE offset then
4-byte LE length, per entry. -/
def encodeEntries (es : List TileEntry) : List Nat :=
  es.flatMap (fun e => toLE 8 e.offset ++ toLE 4 e.length)

/-- The `level_N.idx` bytes written by pack.rs `pack_dzsave_tiles` for one
level: magic, u32 version, u16 cols, u16 rows, then the entry table. -/
def packLevelIdx (tiles : Nat → Nat → Option (List Nat)) (cols rows : Nat) : List Nat :=
  LEVEL_MAGIC ++ (toLE 4 LEVEL_VERSION ++ (toLE 2 cols ++ (toLE 2 rows ++
    encodeEntries (packCells tiles (gridCells cols rows) 0).1)))

/-- The `level_N.pack` bytes: the concatenated payloads. -/
def packLevelPack (tiles : Nat → Nat → Option (List Nat)) (cols rows : Nat) : List Nat :=
  (packCells tiles (gridCells cols rows) 0).2

/-- A 1×1 index whose single entry points past its pack file: valid header,
one cell, entry (offset 100, length 100) against a pack of 10 bytes. -/
def overrangeIdx : List Nat :=
  LEVEL_MAGIC ++ toLE 4 1 ++ toLE 2 1 ++ toLE 2 1 ++ toLE 8 100 ++ toLE 4 100

/-- A 1×1 tile directory whose only tile file is present but empty. -/
def emptyTileDir : Nat → Nat → Option (List Nat) :=
  fun col row => if col = 0 ∧ row = 0 then some [] else none

/-- A 1×1 tile directory with a single 3-byte tile file. -/
def sampleTileDir : Nat → Nat → Option (List Nat) :=
  fun col row => if col = 0 ∧ row = 0 then some [7, 8, 9] else none

/-! ## Tile-reader region assembly (tile_reader.rs) -/

/-- The per-tile result the region assembler consumes (tile_reader.rs
`decode_tile_bytes`: container ref lookup + positional read + JPEG decode,
`None` for a missing or out-of-grid tile). The claims about `decode_region`
concern the successful path, so the embedding takes this per-tile result as
the oracle `tileAt col row`; a read or decode error would propagate out of
`decode_region_bytes` unchanged and is orthogonal to the assembly logic. -/
structure DecodedTile where
  bytes : List Nat
  w : Nat
  h : Nat
  deriving DecidableEq, Repr

/-- tile_reader.rs `div_floor` = `i64::div_euclid`; Lean's `Int.ediv` is
exactly Euclidean division. -/
def div_floor (a b : Int) : Int := Int.ediv a b

/-- One `copy_from_slice` of the blit: replace `src.length` bytes of `out`
starting at `start`. -/
def writeRange (out : List Nat) (start : Nat) (src : List Nat) : List Nat :=
  out.take start ++ (src ++ out.drop (start + src.length))

/-- The row loop of the blit in tile_reader.rs `decode_region_bytes`:
for each copied row, copy `copy_w * 3` bytes from the tile buffer into the
output buffer at the row's destination offset. -/
def blitTile (out : List Nat) (out_w : Nat) (tbytes : List Nat) (tile_w : Nat)
    (src_x src_y dst_x dst_y copy_w copy_h : Nat) : List Nat :=
  (List.range copy_h).foldl
    (fun o row =>
      writeRange o (((dst_y + row) * out_w + dst_x) * 3)
        ((tbytes.drop (((src_y + row) * tile_w + src_x) * 3)).take (copy_w * 3)))
    out

/-- The integer range `a..b` of a Rust `for` loop. -/
def intRange (a b : Int) : List Int :=
  (List.range (b - a).toNat).map (fun i : Nat => ((a + i : Int)))

/-- The body of the per-tile loop of tile_reader.rs `decode_region_bytes`:
skip negative cells, decode the tile, skip empty tiles and empty
intersections, and blit the intersection; `cell = (c, r)`. -/
def regionStep (tileAt : Nat → Nat → Option DecodedTile) (tile_size : Int)
    (x y x2 y2 : Int) (w : Nat) (out : List Nat) (cell : Int × Int) : List Nat :=
  if cell.1 < 0 ∨ cell.2 < 0 then out
  else
    match tileAt cell.1.toNat cell.2.toNat with
    | none => out
    | some t =>
      if t.w = 0 ∨ t.h = 0 then out
      else
        let tile_x := cell.1 * tile_size
        let tile_y := cell.2 * tile_size
        let left := max x tile_x
        let top := max y tile_y
        let right := min x2 (tile_x + (t.w : Int))
        let bottom := min y2 (tile_y + (t.h : Int))
        if right ≤ left ∨ bottom ≤ top then out
        else
          blitTile out w t.bytes t.w (left - tile_x).toNat (top - tile_y).toNat
            (left - x).toNat (top - y).toNat (right - left).toNat (bottom - top).toNat

/-- tile_reader.rs `decode_region_bytes`. The `usize`/`i64` overflow guards
(`out_len` and `x + w`) cannot fire over `Nat`/`Int` and are omitted; the
`w`/`h` and `tile_size` validations are kept. The output starts as
`w·h·3` bytes of 0xFF and each intersecting tile is blitted in loop order. -/
def decode_region_bytes (tileAt : Nat → Nat → Option DecodedTile) (tile_size : Int)
    (x y : Int) (w h : Nat) : Except TileErr (List Nat) :=
  if w = 0 ∨ h = 0 then
    .error (.validation "Region width and height must be positive")
  else if tile_size ≤ 0 then
    .error (.validation "tile_size must be positive")
  else
    let x2 := x + (w : Int)
    let y2 := y + (h : Int)
    .ok ((((intRange (div_floor y tile_size) (div_floor (y2 - 1) tile_size + 1)).flatMap
        (fun r => (intRange (div_floor x tile_size) (div_floor (x2 - 1) tile_size + 1)).map
          (fun c => (c, r))))).foldl
      (regionStep tileAt tile_size x y x2 y2 w)
      (List.replicate (w * h * 3) 255))

/-- The claim's per-pixel specification: 0xFF unless the pixel's absolute
level coordinate lands inside a present tile — the tile of the enclosing
tile_size-aligned grid cell — in which case that tile's decoded byte. -/
def regionPixel (tileAt : Nat → Nat → Option DecodedTile) (ts : Nat)
    (ax ay : Int) (k : Nat) : Nat :=
  if ax < 0 ∨ ay < 0 then 255
  else
    match tileAt (ax.toNat / ts) (ay.toNat / ts) with
    | none => 255
    | some t =>
      if ax.toNat % ts < t.w ∧ ay.toNat % ts < t.h then
        t.bytes.getD ((ay.toNat % ts * t.w + ax.toNat % ts) * 3 + k) 255
      else 255

/-- Proof device for the region-assembly invariant: the cell `(c, r)` covers
the region pixel `(px, py)` when the pixel's absolute coordinate is
nonnegative, lands in the tile-grid cell `(c, r)`, and falls inside that
cell's present decoded tile. With every tile no wider/taller than
`tile_size`, at most one cell covers any pixel. -/
def CellCovers (tileAt : Nat → Nat → Option DecodedTile) (ts : Nat) (x y : Int)
    (cell : Int × Int) (px py : Nat) : Prop :=
  0 ≤ x + (px : Int) ∧ 0 ≤ y + (py : Int) ∧
  cell.1 = (((x + (px : Int)).toNat / ts : Nat) : Int) ∧
  cell.2 = (((y + (py : Int)).toNat / ts : Nat) : Int) ∧
  ∃ t, tileAt ((x + (px : Int)).toNat / ts) ((y + (py : Int)).toNat / ts) = some t ∧
    (x + (px : Int)).toNat % ts < t.w ∧ (y + (py : Int)).toNat % ts < t.h

/-- Proof device for the region-assembly invariant: the value of the region
pixel `(px, py)` (channel `k`) after the loop has processed exactly the cells
in `done` — 0xFF unless the pixel's covering cell has been processed, in
which case the tile byte. After all loop cells are processed this coincides
with `regionPixel`. -/
def coveredPix (tileAt : Nat → Nat → Option DecodedTile) (ts : Nat) (x y : Int)
    (done : List (Int × Int)) (px py k : Nat) : Nat :=
  if x + (px : Int) < 0 ∨ y + (py : Int) < 0 then 255
  else
    match tileAt ((x + (px : Int)).toNat / ts) ((y + (py : Int)).toNat / ts) with
    | none => 255
    | some t =>
      if ((((x + (px : Int)).toNat / ts : Nat) : Int),
            (((y + (py : Int)).toNat / ts : Nat) : Int)) ∈ done ∧
          (x + (px : Int)).toNat % ts < t.w ∧ (y + (py : Int)).toNat % ts < t.h then
        t.bytes.getD (((y + (py : Int)).toNat % ts * t.w +
          (x + (px : Int)).toNat % ts) * 3 + k) 255
      else 255

/-- A concrete one-tile oracle: a single present 1×1 RGB tile at grid cell
(0, 0) with bytes [1, 2, 3]. -/
def sampleTileAt : Nat → Nat → Option DecodedTile :=
  fun col row => if col = 0 ∧ row = 0 then some ⟨[1, 2, 3], 1, 1⟩ else none

/-! ## Theorems

Claim theorems are named `claim_Cn`; their witnesses `claim_Cn_witness`;
counterexamples for corrected claims `claim_Cn_counterexample`. -/

theorem mem_filter_qual (m : SlideMetadata) (target : ℚ) (l : LevelInfo) :
    l ∈ m.levels.filter (fun l => decide ((l.downsample : ℚ) ≤ target)) ↔
      l ∈ m.levels ∧ (l.downsample : ℚ) ≤ target := by
  simp [List.mem_filter]

/-- Claim C3: for every validated metadata and scale, level selection computes
`target = 1/scale` and returns the highest level number among levels with
`downsample ≤ target`, falling back to level 0 when no level qualifies; on the
concrete pyramid with downsamples 1, 2, 4 at levels 0, 1, 2 it returns
0, 1, 1, 0 at scales 1.0, 0.5, 0.3, 0.6. -/
theorem claim_C3 (m : SlideMetadata) (scale : ℚ) (_hm : m.Validated) :
    (∀ l ∈ m.levels, (l.downsample : ℚ) ≤ 1 / scale →
        l.level ≤ level_for_scale m scale) ∧
    ((∃ l ∈ m.levels, (l.downsample : ℚ) ≤ 1 / scale) →
        ∃ l ∈ m.levels, (l.downsample : ℚ) ≤ 1 / scale ∧
          l.level = level_for_scale m scale) ∧
    ((∀ l ∈ m.levels, ¬ (l.downsample : ℚ) ≤ 1 / scale) →
        level_for_scale m scale = 0) ∧
    level_for_scale exampleMetadata 1 = 0 ∧
    level_for_scale exampleMetadata (1/2) = 1 ∧
    level_for_scale exampleMetadata (3/10) = 1 ∧
    level_for_scale exampleMetadata (3/5) = 0 := by
  have hmain : (∀ l ∈ m.levels, (l.downsample : ℚ) ≤ 1 / scale →
        l.level ≤ level_for_scale m scale) ∧
      ((∃ l ∈ m.levels, (l.downsample : ℚ) ≤ 1 / scale) →
        ∃ l ∈ m.levels, (l.downsample : ℚ) ≤ 1 / scale ∧
          l.level = level_for_scale m scale) ∧
      ((∀ l ∈ m.levels, ¬ (l.downsample : ℚ) ≤ 1 / scale) →
        level_for_scale m scale = 0) := by
    unfold level_for_scale
    set qual := m.levels.filter (fun l => decide ((l.downsample : ℚ) ≤ 1 / scale)) with hqual
    cases hmax : (qual.map (fun l => l.level)).max? with
    | none =>
      have hempty : qual.map (fun l => l.level) = [] := List.max?_eq_none_iff.mp hmax
      have hqe : qual = [] := by
        cases hq : qual with
        | nil => rfl
        | cons a t => rw [hq] at hempty; simp at hempty
      refine ⟨?_, ?_, ?_⟩
      · intro l hl hd
        exfalso
        have : l ∈ qual := (mem_filter_qual m (1 / scale) l).mpr ⟨hl, hd⟩
        rw [hqe] at this; simp at this
      · rintro ⟨l, hl, hd⟩
        exfalso
        have : l ∈ qual := (mem_filter_qual m (1 / scale) l).mpr ⟨hl, hd⟩
        rw [hqe] at this; simp at this
      · intro _
        rfl
    | some a =>
      have hiff := List.max?_eq_some_iff'.mp hmax
      obtain ⟨hamem, hbound⟩ := hiff
      refine ⟨?_, ?_, ?_⟩
      · intro l hl hd
        have hq : l ∈ qual := (mem_filter_qual m (1 / scale) l).mpr ⟨hl, hd⟩
        have : l.level ∈ qual.map (fun l => l.level) := List.mem_map_of_mem _ hq
        simpa using hbound _ this
      · intro _
        obtain ⟨l, hlq, hla⟩ := List.mem_map.mp hamem
        obtain ⟨hl, hd⟩ := (mem_filter_qual m (1 / scale) l).mp hlq
        exact ⟨l, hl, hd, by simpa using hla⟩
      · intro hnone
        exfalso
        obtain ⟨l, hlq, _⟩ := List.mem_map.mp hamem
        obtain ⟨hl, hd⟩ := (mem_filter_qual m (1 / scale) l).mp hlq
        exact hnone l hl hd
  refine ⟨hmain.1, hmain.2.1, hmain.2.2, ?_, ?_, ?_, ?_⟩ <;>
    norm_num [level_for_scale, exampleMetadata, List.filter, List.max?]

/-- Witness for C3: the theorem applied to the claim's own concrete pyramid
(validated) at scale 1/2, where level 1 (downsample 2) qualifies. -/
theorem claim_C3_witness :
    ∃ l ∈ exampleMetadata.levels, (l.downsample : ℚ) ≤ 1 / (1/2) ∧
      l.level = level_for_scale exampleMetadata (1/2) := by
  have hv : exampleMetadata.Validated := by
    refine ⟨by norm_num [exampleMetadata], by norm_num [exampleMetadata],
      by norm_num [exampleMetadata], by simp [exampleMetadata], ?_, ?_⟩
    · simp [exampleMetadata]
    · intro l hl
      fin_cases hl <;> simp
  exact (claim_C3 exampleMetadata (1/2) hv).2.1
    ⟨⟨1, 2, 10, 10⟩, by simp [exampleMetadata], by norm_num⟩

theorem velx_reduce (cfg : PrefetchConfig) (v : Viewport) (A : ℚ) :
    (if |v.velocity_x| > cfg.min_velocity ∨ |v.velocity_y| > cfg.min_velocity then
      ((if |v.velocity_x| > cfg.min_velocity then fsignum v.velocity_x * A else 0),
       (if |v.velocity_y| > cfg.min_velocity then fsignum v.velocity_y * A else 0))
    else ((0 : ℚ), (0 : ℚ))) =
    ((if |v.velocity_x| > cfg.min_velocity then fsignum v.velocity_x * A else 0),
     (if |v.velocity_y| > cfg.min_velocity then fsignum v.velocity_y * A else 0)) := by
  by_cases hx : |v.velocity_x| > cfg.min_velocity <;>
    by_cases hy : |v.velocity_y| > cfg.min_velocity <;>
    simp [hx, hy]

theorem axis_ext_min (minv A vel : ℚ) (hm : 0 ≤ minv) (hA : 0 ≤ A) :
    min (if |vel| > minv then fsignum vel * A else 0) 0 =
      -(if vel < -minv then A else 0) := by
  by_cases h1 : minv < vel
  · have habs : |vel| > minv := by
      rw [abs_of_nonneg (le_trans hm (le_of_lt h1))]; exact h1
    have hs : fsignum vel = 1 := by
      unfold fsignum
      rw [if_pos (le_trans hm (le_of_lt h1))]
    have hnl : ¬ vel < -minv := by
      push_neg
      linarith
    rw [if_pos habs, if_neg hnl, hs, one_mul]
    simp [min_eq_right hA]
  · by_cases h2 : vel < -minv
    · have habs : |vel| > minv := by
        rw [abs_of_neg (by linarith : vel < 0)]; linarith
      have hs : fsignum vel = -1 := by
        unfold fsignum
        rw [if_neg (by push_neg; linarith)]
      rw [if_pos habs, if_pos h2, hs]
      have : (-1 : ℚ) * A = -A := by ring
      rw [this, min_eq_left (by linarith)]
    · have habs : ¬ |vel| > minv := by
        push_neg
        rw [abs_le]
        constructor <;> push_neg at h1 h2 <;> linarith
      rw [if_neg habs, if_neg h2]
      simp

theorem axis_ext_abs (minv A vel : ℚ) (hm : 0 ≤ minv) (hA : 0 ≤ A) :
    |if |vel| > minv then fsignum vel * A else 0| =
      (if vel < -minv then A else 0) + (if minv < vel then A else 0) := by
  by_cases h1 : minv < vel
  · have habs : |vel| > minv := by
      rw [abs_of_nonneg (le_trans hm (le_of_lt h1))]; exact h1
    have hs : fsignum vel = 1 := by
      unfold fsignum; rw [if_pos (le_trans hm (le_of_lt h1))]
    have hnl : ¬ vel < -minv := by push_neg; linarith
    rw [if_pos habs, if_neg hnl, if_pos h1, hs, one_mul, abs_of_nonneg hA]
    ring
  · by_cases h2 : vel < -minv
    · have habs : |vel| > minv := by
        rw [abs_of_neg (by linarith : vel < 0)]; linarith
      have hs : fsignum vel = -1 := by
        unfold fsignum; rw [if_neg (by push_neg; linarith)]
      rw [if_pos habs, if_pos h2, if_neg h1, hs]
      have : (-1 : ℚ) * A = -A := by ring
      rw [this, abs_neg, abs_of_nonneg hA]
      ring
    · have habs : ¬ |vel| > minv := by
        push_neg
        rw [abs_le]
        constructor <;> push_neg at h1 h2 <;> linarith
      rw [if_neg habs, if_neg h2, if_neg h1]
      simp

/-- Counterexample for claim C7 at `|velocity_x| = min_velocity` exactly: the
code's strict `>` produces no directional extension, while the claim's `≥`
threshold demands one (extended width 2048 versus the claimed 3072). -/
theorem claim_C7_counterexample :
    extended_viewport PrefetchConfig.defaultConfig ⟨0, 0, 1024, 1024, 1, 50, 0⟩ 512 ≠
      claimed_extended_viewport PrefetchConfig.defaultConfig ⟨0, 0, 1024, 1024, 1, 50, 0⟩ 512 := by
  have h1 : extended_viewport PrefetchConfig.defaultConfig ⟨0, 0, 1024, 1024, 1, 50, 0⟩ 512 =
      (-512, -512, 2048, 2048) := by
    norm_num [extended_viewport, PrefetchConfig.defaultConfig, fsignum]
  have h2 : claimed_extended_viewport PrefetchConfig.defaultConfig ⟨0, 0, 1024, 1024, 1, 50, 0⟩ 512 =
      (-512, -512, 3072, 2048) := by
    norm_num [claimed_extended_viewport, PrefetchConfig.defaultConfig]
  rw [h1, h2]
  intro h
  have := congrArg (fun p => p.2.2.1) h
  norm_num at this

/-- Claim C7 as amended: for every nonnegative velocity threshold the extended
viewport equals the viewport enlarged by a base ring of `tiles_around`
tile-widths plus, for each axis whose absolute velocity is STRICTLY greater
than `min_velocity`, `tiles_ahead` tile-widths in the sign of that axis's
velocity; an axis at or below the threshold contributes no directional
extension. -/
theorem claim_C7 (cfg : PrefetchConfig) (v : Viewport) (tile_size : Nat)
    (hm : 0 ≤ cfg.min_velocity) :
    extended_viewport cfg v tile_size = amended_extended_viewport cfg v tile_size := by
  unfold extended_viewport amended_extended_viewport
  have hA : (0 : ℚ) ≤ (tile_size : ℚ) * (cfg.tiles_ahead : ℚ) := by positivity
  have hx := velx_reduce cfg v ((tile_size : ℚ) * (cfg.tiles_ahead : ℚ))
  simp only [gt_iff_lt] at hx ⊢
  have hassoc : ∀ q : ℚ, fsignum q * (tile_size : ℚ) * (cfg.tiles_ahead : ℚ) =
      fsignum q * ((tile_size : ℚ) * (cfg.tiles_ahead : ℚ)) := fun q => by ring
  rw [hassoc v.velocity_x, hassoc v.velocity_y, hx]
  have e1 := axis_ext_min cfg.min_velocity ((tile_size : ℚ) * (cfg.tiles_ahead : ℚ))
    v.velocity_x hm hA
  have e2 := axis_ext_min cfg.min_velocity ((tile_size : ℚ) * (cfg.tiles_ahead : ℚ))
    v.velocity_y hm hA
  have e3 := axis_ext_abs cfg.min_velocity ((tile_size : ℚ) * (cfg.tiles_ahead : ℚ))
    v.velocity_x hm hA
  have e4 := axis_ext_abs cfg.min_velocity ((tile_size : ℚ) * (cfg.tiles_ahead : ℚ))
    v.velocity_y hm hA
  simp only [gt_iff_lt] at e1 e2 e3 e4
  rw [Prod.mk.injEq, Prod.mk.injEq, Prod.mk.injEq]
  refine ⟨?_, ?_, ?_, ?_⟩
  · rw [e1]; ring
  · rw [e2]; ring
  · rw [e3]
    by_cases hl : v.velocity_x < -cfg.min_velocity <;>
      by_cases hr : cfg.min_velocity < v.velocity_x <;>
      simp [hl, hr] <;> ring
  · rw [e4]
    by_cases hl : v.velocity_y < -cfg.min_velocity <;>
      by_cases hr : cfg.min_velocity < v.velocity_y <;>
      simp [hl, hr] <;> ring

/-- Witness for the amended C7 at the default config (threshold 50 ≥ 0) and a
rightward-moving viewport strictly above the threshold. -/
theorem claim_C7_witness :
    extended_viewport PrefetchConfig.defaultConfig ⟨0, 0, 1024, 1024, 1, 100, 0⟩ 512 =
      amended_extended_viewport PrefetchConfig.defaultConfig ⟨0, 0, 1024, 1024, 1, 100, 0⟩ 512 :=
  claim_C7 PrefetchConfig.defaultConfig ⟨0, 0, 1024, 1024, 1, 100, 0⟩ 512 (by norm_num [PrefetchConfig.defaultConfig])

theorem sched_load_ok_dest (d : Disk) (s : SchedState) (path : String)
    (h : (sched_load d s path).1 = .ok ()) :
    ∃ slide_id entry pool2,
      (sched_load d s path).2 =
        { s with pool := pool2, generation := s.generation + 1, in_flight := [],
                 cache := s.cache.clearC, slide := some entry,
                 active_slide_id := slide_id } := by
  unfold sched_load at h ⊢
  by_cases h1 : ¬ d.path_exists path
  · rw [if_pos h1] at h
    simp at h
  · rw [if_neg h1] at h ⊢
    cases h2 : d.canonicalize path with
    | none => rw [h2] at h; simp at h
    | some canonical =>
      rw [h2] at h
      dsimp only at h ⊢
      cases h3 : pool_load_or_get d s.pool (d.slide_id_of canonical) path with
      | error e => rw [h3] at h; simp at h
      | ok pr =>
        obtain ⟨entry, pool2⟩ := pr
        exact ⟨_, _, _, rfl⟩

/-- Claim C1: a prefetch worker whose captured `batch_generation` differs
from the scheduler's generation at the moment it runs returns `none` and
leaves the scheduler state (in particular L1) untouched — generation check 1
fires before any cache access; consequently any worker whose generation was
captured no later than the state preceding a successful `load` observes a
mismatch against the post-load state and inserts nothing into the fresh L1. -/
theorem claim_C1 (env : TileEnv) (d : Disk) (s : SchedState) (path p : String)
    (coord : TileCoord) (g : Nat)
    (hload : (sched_load d s path).1 = .ok ()) (hg : g ≤ s.generation) :
    (∀ s0 : SchedState, s0.generation ≠ g →
        load_tile_for_prefetch env s0 coord p g = (none, s0)) ∧
    load_tile_for_prefetch env (sched_load d s path).2 coord p g =
      (none, (sched_load d s path).2) := by
  have hstale : ∀ s0 : SchedState, s0.generation ≠ g →
      load_tile_for_prefetch env s0 coord p g = (none, s0) := by
    intro s0 h
    simp [load_tile_for_prefetch, h]
  refine ⟨hstale, ?_⟩
  obtain ⟨sid, entry, pool2, hdest⟩ := sched_load_ok_dest d s path hload
  apply hstale
  rw [hdest]
  show s.generation + 1 ≠ g
  omega

/-- Witness for C1: a fresh scheduler (generation 0), a successful `load`
(which bumps the generation to 1), and a worker holding batch generation 0. -/
theorem claim_C1_witness :
    load_tile_for_prefetch failEnv (sched_load okDisk sched_new "a").2 ⟨0, 0, 0⟩ "p" 0 =
      (none, (sched_load okDisk sched_new "a").2) :=
  (claim_C1 failEnv okDisk sched_new "a" "p" ⟨0, 0, 0⟩ 0 rfl (Nat.le_refl 0)).2

/-- Claim C2: after a successful `load`, L1 is empty with hits = misses = 0
and L2 is exactly the pre-load L2 (the model has no capacity eviction, so
"unchanged modulo capacity" is plain equality); `close` likewise clears L1
and leaves L2 exactly as it was. -/
theorem claim_C2 (d : Disk) (s : SchedState) (path : String)
    (h : (sched_load d s path).1 = .ok ()) :
    (sched_load d s path).2.cache.entries = [] ∧
    (sched_load d s path).2.cache.hits = 0 ∧
    (sched_load d s path).2.cache.misses = 0 ∧
    (sched_load d s path).2.l2_cache = s.l2_cache ∧
    ∀ s0 : SchedState, (sched_close s0).l2_cache = s0.l2_cache ∧
      (sched_close s0).cache.entries = [] ∧
      (sched_close s0).cache.hits = 0 ∧ (sched_close s0).cache.misses = 0 := by
  obtain ⟨sid, entry, pool2, hdest⟩ := sched_load_ok_dest d s path h
  rw [hdest]
  exact ⟨rfl, rfl, rfl, rfl, fun s0 => ⟨rfl, rfl, rfl, rfl⟩⟩

/-- Witness for C2: the successful concrete `load` on a fresh scheduler. -/
theorem claim_C2_witness :
    (sched_load okDisk sched_new "a").2.cache.entries = [] ∧
      (sched_load okDisk sched_new "a").2.l2_cache = sched_new.l2_cache := by
  have h := claim_C2 okDisk sched_new "a" rfl
  exact ⟨h.1, h.2.2.2.1⟩

/-- Claim C6: when `load` fails — missing path, failed canonicalize, or a
metadata load/validation error — the returned state is exactly the input
state: generation, in-flight set, L1 entries and stats, L2, pool, current
slide and active slide id are all untouched. -/
theorem claim_C6 (d : Disk) (s : SchedState) (path : String) (e : TileErr)
    (h : (sched_load d s path).1 = .error e) :
    (sched_load d s path).2 = s := by
  unfold sched_load at h ⊢
  by_cases h1 : ¬ d.path_exists path
  · rw [if_pos h1]
  · rw [if_neg h1] at h ⊢
    cases h2 : d.canonicalize path with
    | none => rfl
    | some canonical =>
      rw [h2] at h
      dsimp only at h ⊢
      cases h3 : pool_load_or_get d s.pool (d.slide_id_of canonical) path with
      | error e2 => rfl
      | ok pr =>
        obtain ⟨entry, pool2⟩ := pr
        rw [h3] at h
        simp at h

/-- Witness for C6: `load` on a disk with no paths fails with an IO error and
returns the input state unchanged. -/
theorem claim_C6_witness : (sched_load absentDisk sched_new "a").2 = sched_new :=
  claim_C6 absentDisk sched_new "a" .io rfl

theorem dispatch_fold_extend (B : Nat) (l : List TileCoord) :
    ∀ acc : List TileCoord,
      ∃ extras,
        l.foldl (fun acc c =>
          if B ≤ acc.length then acc
          else if c ∈ acc then acc
          else acc ++ [c]) acc = acc ++ extras ∧
        (∀ c ∈ extras, c ∈ l ∧ c ∉ acc) ∧
        acc.length + extras.length ≤ max acc.length B := by
  induction l with
  | nil =>
    intro acc
    exact ⟨[], by simp, by simp, by simp⟩
  | cons c rest ih =>
    intro acc
    by_cases hfull : B ≤ acc.length
    · obtain ⟨extras, he, hmem, hlen⟩ := ih acc
      refine ⟨extras, ?_, ?_, hlen⟩
      · simpa [List.foldl_cons, hfull] using he
      · intro x hx
        exact ⟨List.mem_cons_of_mem _ (hmem x hx).1, (hmem x hx).2⟩
    · by_cases hmemc : c ∈ acc
      · obtain ⟨extras, he, hmem, hlen⟩ := ih acc
        refine ⟨extras, ?_, ?_, hlen⟩
        · simpa [List.foldl_cons, hfull, hmemc] using he
        · intro x hx
          exact ⟨List.mem_cons_of_mem _ (hmem x hx).1, (hmem x hx).2⟩
      · obtain ⟨extras, he, hmem, hlen⟩ := ih (acc ++ [c])
        refine ⟨c :: extras, ?_, ?_, ?_⟩
        · rw [List.foldl_cons, if_neg hfull, if_neg hmemc, he]
          simp
        · intro x hx
          rcases List.mem_cons.mp hx with hxc | hxr
          · subst hxc
            exact ⟨List.mem_cons_self _ _, hmemc⟩
          · refine ⟨List.mem_cons_of_mem _ (hmem x hxr).1, ?_⟩
            intro hxa
            exact (hmem x hxr).2 (List.mem_append_left _ hxa)
        · have hb : acc.length < B := Nat.lt_of_not_le hfull
          rw [List.length_append] at hlen
          simp only [List.length_singleton, List.length_cons] at hlen ⊢
          omega

/-- Claim C8: every prefetch dispatch admits the visible uncached tiles first,
capped at `MAX_VISIBLE_TILES = 256`, and then admits at most
`EXTENDED_TILE_BUDGET = 32` further tiles, all drawn from the planner output
and distinct from the admitted visible tiles. -/
theorem claim_C8 (cfg : PrefetchConfig) (m : SlideMetadata) (v : Viewport)
    (l1contains : TileCoord → Bool) :
    ∃ extras,
      prefetch_plan cfg m v l1contains =
        ((visible_tiles m v).filter (fun c => ¬ l1contains c)).take MAX_VISIBLE_TILES
          ++ extras ∧
      extras.length ≤ EXTENDED_TILE_BUDGET ∧
      ∀ c ∈ extras, c ∈ prefetch_tiles cfg m v l1contains ∧
        c ∉ ((visible_tiles m v).filter (fun c => ¬ l1contains c)).take
              MAX_VISIBLE_TILES := by
  unfold prefetch_plan dispatch_tiles
  obtain ⟨extras, he, hmem, hlen⟩ :=
    dispatch_fold_extend
      (min ((visible_tiles m v).filter (fun c => ¬ l1contains c)).length
          MAX_VISIBLE_TILES +
        (EXTENDED_TILE_BUDGET -
          min (min ((visible_tiles m v).filter (fun c => ¬ l1contains c)).length
                MAX_VISIBLE_TILES)
            EXTENDED_TILE_BUDGET))
      (prefetch_tiles cfg m v l1contains)
      (((visible_tiles m v).filter (fun c => ¬ l1contains c)).take MAX_VISIBLE_TILES)
  refine ⟨extras, he, ?_, hmem⟩
  rw [List.length_take] at hlen
  simp only [MAX_VISIBLE_TILES, EXTENDED_TILE_BUDGET] at hlen ⊢
  omega

theorem parse_ok_facts (level : Nat) (idx : List Nat) (plen : Nat) (p : ParsedLevel)
    (h : LevelPack.parse level idx plen = .ok p) :
    LEVEL_HEADER_SIZE ≤ idx.length ∧
    idx.take 8 = LEVEL_MAGIC ∧
    leNum ((idx.drop 8).take 4) = LEVEL_VERSION ∧
    leNum ((idx.drop 12).take 2) ≠ 0 ∧
    leNum ((idx.drop 14).take 2) ≠ 0 ∧
    LEVEL_HEADER_SIZE + leNum ((idx.drop 12).take 2) * leNum ((idx.drop 14).take 2) *
      LEVEL_ENTRY_SIZE ≤ idx.length ∧
    p = ⟨level, leNum ((idx.drop 12).take 2), leNum ((idx.drop 14).take 2),
      readEntries (idx.drop LEVEL_HEADER_SIZE)
        (leNum ((idx.drop 12).take 2) * leNum ((idx.drop 14).take 2)), plen⟩ := by
  unfold LevelPack.parse at h
  by_cases c1 : idx.length < LEVEL_HEADER_SIZE
  · rw [if_pos c1] at h; simp at h
  · rw [if_neg c1] at h
    by_cases c2 : idx.take 8 ≠ LEVEL_MAGIC
    · rw [if_pos c2] at h; simp at h
    · rw [if_neg c2] at h
      by_cases c3 : leNum ((idx.drop 8).take 4) ≠ LEVEL_VERSION
      · rw [if_pos c3] at h; simp at h
      · rw [if_neg c3] at h
        by_cases c4 : leNum ((idx.drop 12).take 2) = 0 ∨ leNum ((idx.drop 14).take 2) = 0
        · rw [if_pos c4] at h; simp at h
        · rw [if_neg c4] at h
          by_cases c5 : idx.length < LEVEL_HEADER_SIZE +
              leNum ((idx.drop 12).take 2) * leNum ((idx.drop 14).take 2) * LEVEL_ENTRY_SIZE
          · rw [if_pos c5] at h; simp at h
          · rw [if_neg c5] at h
            push_neg at c1 c2 c3 c4 c5
            refine ⟨c1, c2, c3, c4.1, c4.2, c5, ?_⟩
            exact (Except.ok.inj h).symm

/-- Counterexample for claim C5: an index whose single entry has
offset + length = 200 against a pack of 10 bytes is ACCEPTED by the parser —
`LevelPack::parse` has no `offset + length ≤ pack_len` check. -/
theorem claim_C5_counterexample :
    LevelPack.parse 0 overrangeIdx 10 = .ok ⟨0, 1, 1, [⟨100, 100⟩], 10⟩ ∧
      (10 : Nat) < 100 + 100 :=
  ⟨rfl, by norm_num⟩

/-- Claim C5 as amended: the parser rejects bad magic, wrong version, zero
cols/rows and a truncated entry table; an entry whose `offset + length`
exceeds the pack size is accepted by the parser, and is instead rejected with
a Validation error by `read_tile_bytes` at read time. -/
theorem claim_C5 (level : Nat) (idx : List Nat) (plen : Nat) :
    (idx.take 8 ≠ LEVEL_MAGIC → ∀ p, LevelPack.parse level idx plen ≠ .ok p) ∧
    (leNum ((idx.drop 8).take 4) ≠ LEVEL_VERSION →
      ∀ p, LevelPack.parse level idx plen ≠ .ok p) ∧
    (leNum ((idx.drop 12).take 2) = 0 ∨ leNum ((idx.drop 14).take 2) = 0 →
      ∀ p, LevelPack.parse level idx plen ≠ .ok p) ∧
    (idx.length < LEVEL_HEADER_SIZE + leNum ((idx.drop 12).take 2) *
        leNum ((idx.drop 14).take 2) * LEVEL_ENTRY_SIZE →
      ∀ p, LevelPack.parse level idx plen ≠ .ok p) ∧
    ∀ (levels : List LoadedLevel) (tr : PackTileRef) (info : LoadedLevel),
      TilePack.find_level levels tr.level = some info →
      info.parsed.pack_len < tr.offset + tr.length →
      tr.length ≠ 0 →
      TilePack.read_tile_bytes levels tr =
        .error (.validation "tile byte range exceeds pack size") := by
  refine ⟨?_, ?_, ?_, ?_, ?_⟩
  · intro hcond p hp
    exact hcond (parse_ok_facts level idx plen p hp).2.1
  · intro hcond p hp
    exact hcond (parse_ok_facts level idx plen p hp).2.2.1
  · intro hcond p hp
    rcases hcond with h0 | h0
    · exact (parse_ok_facts level idx plen p hp).2.2.2.1 h0
    · exact (parse_ok_facts level idx plen p hp).2.2.2.2.1 h0
  · intro hcond p hp
    exact absurd (parse_ok_facts level idx plen p hp).2.2.2.2.2.1 (not_le.mpr hcond)
  · intro levels tr info hfind hover hlen
    unfold TilePack.read_tile_bytes
    rw [if_neg hlen, hfind]
    dsimp only
    rw [if_pos hover]

/-- Witness for the amended C5: a concrete loaded level of pack size 10 and a
tile ref reaching to byte 200 is rejected at read time. -/
theorem claim_C5_witness :
    TilePack.read_tile_bytes [⟨⟨0, 1, 1, [⟨100, 100⟩], 10⟩, List.replicate 10 0⟩]
      ⟨0, 100, 100⟩ = .error (.validation "tile byte range exceeds pack size") :=
  (claim_C5 0 overrangeIdx 10).2.2.2.2
    [⟨⟨0, 1, 1, [⟨100, 100⟩], 10⟩, List.replicate 10 0⟩] ⟨0, 100, 100⟩
    ⟨⟨0, 1, 1, [⟨100, 100⟩], 10⟩, List.replicate 10 0⟩ rfl (by norm_num) (by norm_num)

theorem toLE_length (w n : Nat) : (toLE w n).length = w := by
  induction w generalizing n with
  | zero => rfl
  | succ w ih => simp [toLE, ih]

theorem leNum_toLE (w n : Nat) (h : n < 256 ^ w) : leNum (toLE w n) = n := by
  induction w generalizing n with
  | zero =>
    simp [toLE, leNum]
    omega
  | succ w ih =>
    have hd : n / 256 < 256 ^ w := by
      rw [Nat.div_lt_iff_lt_mul (by norm_num)]
      calc n < 256 ^ (w + 1) := h
      _ = 256 ^ w * 256 := by ring
    simp only [toLE, leNum, List.foldr_cons]
    have := ih (n / 256) hd
    simp only [leNum] at this
    rw [this]
    omega

theorem take_of_append (l r : List Nat) (n : Nat) (h : l.length = n) :
    (l ++ r).take n = l := by
  subst h
  exact List.take_left l r

theorem drop_of_append (l r : List Nat) (n : Nat) (h : l.length = n) :
    (l ++ r).drop n = r := by
  subst h
  exact List.drop_left l r

theorem encodeEntries_cons (e : TileEntry) (es : List TileEntry) :
    encodeEntries (e :: es) = toLE 8 e.offset ++ (toLE 4 e.length ++ encodeEntries es) := by
  simp [encodeEntries]

theorem encodeEntries_length (es : List TileEntry) :
    (encodeEntries es).length = LEVEL_ENTRY_SIZE * es.length := by
  induction es with
  | nil => simp [encodeEntries, LEVEL_ENTRY_SIZE]
  | cons e es ih =>
    rw [encodeEntries_cons]
    simp [toLE_length, ih, LEVEL_ENTRY_SIZE]
    ring

theorem readEntries_encode (es : List TileEntry)
    (h : ∀ e ∈ es, e.offset < 256 ^ 8 ∧ e.length < 256 ^ 4) :
    readEntries (encodeEntries es) es.length = es := by
  induction es with
  | nil => rfl
  | cons e es ih =>
    rw [encodeEntries_cons]
    show readEntries _ (es.length + 1) = _
    rw [readEntries]
    have h8 : (toLE 8 e.offset).length = 8 := toLE_length 8 e.offset
    have h4 : (toLE 4 e.length).length = 4 := toLE_length 4 e.length
    have hobt := h e (List.mem_cons_self _ _)
    have htake : (toLE 8 e.offset ++ (toLE 4 e.length ++ encodeEntries es)).take 8 =
        toLE 8 e.offset := take_of_append _ _ _ h8
    have hdrop8 : (toLE 8 e.offset ++ (toLE 4 e.length ++ encodeEntries es)).drop 8 =
        toLE 4 e.length ++ encodeEntries es := drop_of_append _ _ _ h8
    have hdrop12 : (toLE 8 e.offset ++ (toLE 4 e.length ++ encodeEntries es)).drop 12 =
        encodeEntries es := by
      rw [show (12 : Nat) = 8 + 4 by norm_num, ← List.drop_drop, hdrop8]
      exact drop_of_append _ _ _ h4
    rw [htake, hdrop8, hdrop12]
    rw [take_of_append _ _ _ h4]
    rw [leNum_toLE 8 e.offset hobt.1, leNum_toLE 4 e.length hobt.2]
    rw [ih (fun x hx => h x (List.mem_cons_of_mem _ hx))]

theorem gridCells_succ (cols rows : Nat) :
    gridCells cols (rows + 1) =
      gridCells cols rows ++ (List.range cols).map (fun col => (col, rows)) := by
  unfold gridCells
  rw [List.range_succ, List.flatMap_append]
  simp

theorem gridCells_length (cols rows : Nat) : (gridCells cols rows).length = rows * cols := by
  induction rows with
  | zero => simp [gridCells]
  | succ rows ih =>
    rw [gridCells_succ]
    simp [ih]
    ring

theorem gridCells_get (cols rows c r : Nat) (hc : c < cols) (hr : r < rows) :
    (gridCells cols rows).get? (r * cols + c) = some (c, r) := by
  induction rows with
  | zero => omega
  | succ rows ih =>
    rw [gridCells_succ]
    by_cases h : r < rows
    · rw [List.get?_append]
      · exact ih h
      · rw [gridCells_length]
        calc r * cols + c < r * cols + cols := by omega
        _ = (r + 1) * cols := by ring
        _ ≤ rows * cols := Nat.mul_le_mul_right _ (by omega)
    · have hreq : r = rows := by omega
      subst hreq
      rw [List.get?_append_right (by rw [gridCells_length]; omega)]
      rw [gridCells_length]
      have hsub : r * cols + c - r * cols = c := by omega
      rw [hsub, List.get?_map, List.get?_range hc]
      rfl

theorem gridCells_mem (cols rows c r : Nat) :
    (c, r) ∈ gridCells cols rows ↔ c < cols ∧ r < rows := by
  simp only [gridCells, List.mem_flatMap, List.mem_map, List.mem_range, Prod.mk.injEq]
  constructor
  · rintro ⟨a, ha, b, hb, rfl, rfl⟩
    exact ⟨hb, ha⟩
  · rintro ⟨hc, hr⟩
    exact ⟨r, hr, c, hc, rfl, rfl⟩

theorem packCells_fst_length (tiles : Nat → Nat → Option (List Nat))
    (cells : List (Nat × Nat)) : ∀ off : Nat,
    ((packCells tiles cells off).1).length = cells.length := by
  induction cells with
  | nil => intro off; rfl
  | cons cell rest ih =>
    obtain ⟨c, r⟩ := cell
    intro off
    cases h : tiles c r <;> simp [packCells, h, ih]

theorem packCells_bounds (tiles : Nat → Nat → Option (List Nat))
    (cells : List (Nat × Nat)) :
    ∀ off : Nat, ∀ e ∈ (packCells tiles cells off).1,
      e.offset + e.length ≤ off + (packCells tiles cells off).2.length ∧
      (e.length = 0 ∨ ∃ c r d, (c, r) ∈ cells ∧ tiles c r = some d ∧
        e.length = d.length) := by
  induction cells with
  | nil =>
    intro off e he
    simp [packCells] at he
  | cons cell rest ih =>
    obtain ⟨c, r⟩ := cell
    intro off e he
    cases h : tiles c r with
    | none =>
      simp only [packCells, h] at he ⊢
      rcases List.mem_cons.mp he with he0 | hemem
      · subst he0
        exact ⟨by simp, Or.inl rfl⟩
      · obtain ⟨h1, h2⟩ := ih off e hemem
        refine ⟨h1, ?_⟩
        rcases h2 with h2 | ⟨c2, r2, d2, hm, ht, hl⟩
        · exact Or.inl h2
        · exact Or.inr ⟨c2, r2, d2, List.mem_cons_of_mem _ hm, ht, hl⟩
    | some d =>
      simp only [packCells, h] at he ⊢
      rcases List.mem_cons.mp he with he0 | hemem
      · subst he0
        refine ⟨?_, Or.inr ⟨c, r, d, List.mem_cons_self _ _, h, rfl⟩⟩
        dsimp only
        simp only [List.length_append]
        omega
      · obtain ⟨h1, h2⟩ := ih (off + d.length) e hemem
        refine ⟨?_, ?_⟩
        · simp only [List.length_append] at h1 ⊢
          omega
        rcases h2 with h2 | ⟨c2, r2, d2, hm, ht, hl⟩
        · exact Or.inl h2
        · exact Or.inr ⟨c2, r2, d2, List.mem_cons_of_mem _ hm, ht, hl⟩

theorem packCells_spec (tiles : Nat → Nat → Option (List Nat)) (cells : List (Nat × Nat)) :
    ∀ (pre : List Nat) (i c r : Nat), cells.get? i = some (c, r) →
      (tiles c r = none →
        (packCells tiles cells pre.length).1.get? i = some ⟨0, 0⟩) ∧
      (∀ d, tiles c r = some d →
        ∃ o, (packCells tiles cells pre.length).1.get? i = some ⟨o, d.length⟩ ∧
          ((pre ++ (packCells tiles cells pre.length).2).drop o).take d.length = d) := by
  induction cells with
  | nil =>
    intro pre i c r hget
    simp at hget
  | cons cell rest ih =>
    obtain ⟨c0, r0⟩ := cell
    intro pre i c r hget
    cases i with
    | zero =>
      rw [List.get?_cons_zero] at hget
      obtain ⟨rfl, rfl⟩ : c0 = c ∧ r0 = r := by
        have := Option.some.inj hget
        exact ⟨congrArg Prod.fst this, congrArg Prod.snd this⟩
      constructor
      · intro hnone
        simp [packCells, hnone]
      · intro d hsome
        refine ⟨pre.length, ?_, ?_⟩
        · simp [packCells, hsome]
        · simp only [packCells, hsome]
          rw [drop_of_append pre _ pre.length rfl]
          exact take_of_append d _ d.length rfl
    | succ j =>
      rw [List.get?_cons_succ] at hget
      cases h0 : tiles c0 r0 with
      | none =>
        constructor
        · intro hnone
          simp only [packCells, h0, List.get?_cons_succ]
          exact (ih pre j c r hget).1 hnone
        · intro d hsome
          obtain ⟨o, h1, h2⟩ := (ih pre j c r hget).2 d hsome
          refine ⟨o, ?_, ?_⟩
          · simp only [packCells, h0, List.get?_cons_succ]
            exact h1
          · simp only [packCells, h0]
            exact h2
      | some d0 =>
        have hlen : (pre ++ d0).length = pre.length + d0.length := List.length_append pre d0
        constructor
        · intro hnone
          simp only [packCells, h0, List.get?_cons_succ]
          have := (ih (pre ++ d0) j c r hget).1 hnone
          rw [hlen] at this
          exact this
        · intro d hsome
          obtain ⟨o, h1, h2⟩ := (ih (pre ++ d0) j c r hget).2 d hsome
          rw [hlen] at h1 h2
          refine ⟨o, ?_, ?_⟩
          · simp only [packCells, h0, List.get?_cons_succ]
            exact h1
          · simp only [packCells, h0]
            rw [← List.append_assoc]
            exact h2

/-- Counterexample for claim C4: a PRESENT but zero-length tile file is
packed as a length-0 entry — the format's missing-tile marker — so after the
round trip its lookup yields an absent ref instead of a present tile whose
read reproduces the (empty) original bytes. -/
theorem claim_C4_counterexample :
    emptyTileDir 0 0 = some [] ∧
    LevelPack.parse 0 (packLevelIdx emptyTileDir 1 1)
      (packLevelPack emptyTileDir 1 1).length = .ok ⟨0, 1, 1, [⟨0, 0⟩], 0⟩ ∧
    TilePack.tile_ref [⟨⟨0, 1, 1, [⟨0, 0⟩], 0⟩, packLevelPack emptyTileDir 1 1⟩]
      0 0 0 = none :=
  ⟨rfl, rfl, rfl⟩

/-- Claim C4 as amended: for every tile directory and grid within u16 range
(and within the format's u32 tile-length and u64 offset bounds), packing then
parsing the produced index succeeds, and for every grid cell the lookup and
read reproduce the original file bytes exactly when the file is present and
nonempty, while missing cells — and zero-length files, which the format
cannot distinguish from missing tiles — yield an absent ref. -/
theorem claim_C4 (level cols rows : Nat) (tiles : Nat → Nat → Option (List Nat))
    (hc1 : 0 < cols) (hc2 : cols < 65536) (hr1 : 0 < rows) (hr2 : rows < 65536)
    (hsizes : ∀ c r d, c < cols → r < rows → tiles c r = some d → d.length < 2 ^ 32)
    (htot : (packLevelPack tiles cols rows).length < 2 ^ 64) :
    ∃ p : ParsedLevel,
      LevelPack.parse level (packLevelIdx tiles cols rows)
        (packLevelPack tiles cols rows).length = .ok p ∧
      p.cols = cols ∧ p.rows = rows ∧
      ∀ col row, col < cols → row < rows →
        ((tiles col row = none ∨ tiles col row = some []) →
          TilePack.tile_ref [⟨p, packLevelPack tiles cols rows⟩] level col row = none) ∧
        (∀ d, tiles col row = some d → d ≠ [] →
          ∃ tr, TilePack.tile_ref [⟨p, packLevelPack tiles cols rows⟩] level col row
              = some tr ∧
            TilePack.read_tile_bytes [⟨p, packLevelPack tiles cols rows⟩] tr = .ok d) := by
  have hbounds : ∀ e ∈ (packCells tiles (gridCells cols rows) 0).1,
      e.offset < 256 ^ 8 ∧ e.length < 256 ^ 4 := by
    intro e he
    obtain ⟨h1, h2⟩ := packCells_bounds tiles (gridCells cols rows) 0 e he
    constructor
    · have hp : e.offset + e.length ≤ (packLevelPack tiles cols rows).length := by
        simpa [packLevelPack] using h1
      have h64 : (256 : Nat) ^ 8 = 2 ^ 64 := by norm_num
      omega
    · rcases h2 with h0 | ⟨c, r, d, hm, ht, hl⟩
      · rw [h0]; norm_num
      · obtain ⟨hcc, hrr⟩ := (gridCells_mem cols rows c r).mp hm
        have := hsizes c r d hcc hrr ht
        have h32 : (256 : Nat) ^ 4 = 2 ^ 32 := by norm_num
        omega
  have heslen : (packCells tiles (gridCells cols rows) 0).1.length = rows * cols := by
    rw [packCells_fst_length, gridCells_length]
  have hmagiclen : (LEVEL_MAGIC : List Nat).length = 8 := rfl
  have hidx : packLevelIdx tiles cols rows =
      LEVEL_MAGIC ++ (toLE 4 LEVEL_VERSION ++ (toLE 2 cols ++ (toLE 2 rows ++
        encodeEntries (packCells tiles (gridCells cols rows) 0).1))) := rfl
  have h_take8 : (packLevelIdx tiles cols rows).take 8 = LEVEL_MAGIC := by
    rw [hidx]; exact take_of_append _ _ _ hmagiclen
  have h_drop8 : (packLevelIdx tiles cols rows).drop 8 =
      toLE 4 LEVEL_VERSION ++ (toLE 2 cols ++ (toLE 2 rows ++
        encodeEntries (packCells tiles (gridCells cols rows) 0).1)) := by
    rw [hidx]; exact drop_of_append _ _ _ hmagiclen
  have h_ver : leNum (((packLevelIdx tiles cols rows).drop 8).take 4) = LEVEL_VERSION := by
    rw [h_drop8, take_of_append _ _ _ (toLE_length 4 LEVEL_VERSION)]
    exact leNum_toLE 4 LEVEL_VERSION (by norm_num [LEVEL_VERSION])
  have h_drop12 : (packLevelIdx tiles cols rows).drop 12 =
      toLE 2 cols ++ (toLE 2 rows ++
        encodeEntries (packCells tiles (gridCells cols rows) 0).1) := by
    rw [show (12 : Nat) = 8 + 4 by norm_num, ← List.drop_drop, h_drop8]
    exact drop_of_append _ _ _ (toLE_length 4 LEVEL_VERSION)
  have h_cols : leNum (((packLevelIdx tiles cols rows).drop 12).take 2) = cols := by
    rw [h_drop12, take_of_append _ _ _ (toLE_length 2 cols)]
    exact leNum_toLE 2 cols (by norm_num; omega)
  have h_drop14 : (packLevelIdx tiles cols rows).drop 14 =
      toLE 2 rows ++ encodeEntries (packCells tiles (gridCells cols rows) 0).1 := by
    rw [show (14 : Nat) = 12 + 2 by norm_num, ← List.drop_drop, h_drop12]
    exact drop_of_append _ _ _ (toLE_length 2 cols)
  have h_rows : leNum (((packLevelIdx tiles cols rows).drop 14).take 2) = rows := by
    rw [h_drop14, take_of_append _ _ _ (toLE_length 2 rows)]
    exact leNum_toLE 2 rows (by norm_num; omega)
  have h_drop16 : (packLevelIdx tiles cols rows).drop 16 =
      encodeEntries (packCells tiles (gridCells cols rows) 0).1 := by
    rw [show (16 : Nat) = 14 + 2 by norm_num, ← List.drop_drop, h_drop14]
    exact drop_of_append _ _ _ (toLE_length 2 rows)
  have h_idxlen : (packLevelIdx tiles cols rows).length =
      16 + 12 * (rows * cols) := by
    rw [hidx]
    simp [List.length_append, toLE_length, encodeEntries_length, LEVEL_MAGIC,
      LEVEL_ENTRY_SIZE, heslen]
    omega
  have hparse : LevelPack.parse level (packLevelIdx tiles cols rows)
      (packLevelPack tiles cols rows).length =
      .ok ⟨level, cols, rows, (packCells tiles (gridCells cols rows) 0).1,
        (packLevelPack tiles cols rows).length⟩ := by
    unfold LevelPack.parse
    simp only [LEVEL_HEADER_SIZE, LEVEL_ENTRY_SIZE]
    rw [if_neg (by rw [h_idxlen]; omega)]
    rw [if_neg (by rw [h_take8]; simp)]
    rw [if_neg (by rw [h_ver]; simp)]
    rw [if_neg (by rw [h_cols, h_rows]; push_neg; omega)]
    rw [if_neg (by
      rw [h_cols, h_rows, h_idxlen]
      have hcomm : cols * rows * 12 = 12 * (rows * cols) := by ring
      rw [hcomm]
      exact Nat.lt_irrefl _)]
    rw [h_cols, h_rows, h_drop16]
    rw [Nat.mul_comm cols rows, ← heslen, readEntries_encode _ hbounds]
  refine ⟨⟨level, cols, rows, (packCells tiles (gridCells cols rows) 0).1,
    (packLevelPack tiles cols rows).length⟩, hparse, rfl, rfl, ?_⟩
  intro col row hcol hrow
  have hget := gridCells_get cols rows col row hcol hrow
  have hspec := packCells_spec tiles (gridCells cols rows) [] (row * cols + col)
    col row hget
  simp only [List.length_nil, List.nil_append] at hspec
  have hinb : ¬ (col ≥ cols ∨ row ≥ rows) := by omega
  have hfind : TilePack.find_level
      [⟨⟨level, cols, rows, (packCells tiles (gridCells cols rows) 0).1,
        (packLevelPack tiles cols rows).length⟩, packLevelPack tiles cols rows⟩] level =
      some ⟨⟨level, cols, rows, (packCells tiles (gridCells cols rows) 0).1,
        (packLevelPack tiles cols rows).length⟩, packLevelPack tiles cols rows⟩ := by
    simp [TilePack.find_level]
  constructor
  · intro hmiss
    rcases hmiss with hnone | hnil
    · have hent := hspec.1 hnone
      rw [List.get?_eq_getElem?] at hent
      simp [TilePack.tile_ref, TilePack.find_level, hinb, hent]
    · obtain ⟨o, hent, _⟩ := hspec.2 [] hnil
      simp only [List.length_nil] at hent
      rw [List.get?_eq_getElem?] at hent
      simp [TilePack.tile_ref, TilePack.find_level, hinb, hent]
  · intro d hsome hdne
    obtain ⟨o, hent, hslice⟩ := hspec.2 d hsome
    rw [List.get?_eq_getElem?] at hent
    have hdlen : d.length ≠ 0 := by
      intro h0
      exact hdne (List.eq_nil_of_length_eq_zero h0)
    have hlenle : o + d.length ≤ (packCells tiles (gridCells cols rows) 0).2.length := by
      have hc := congrArg List.length hslice
      simp only [List.length_take, List.length_drop] at hc
      have hle2 : d.length ≤ (packCells tiles (gridCells cols rows) 0).2.length - o :=
        min_eq_left_iff.mp hc
      omega
    refine ⟨⟨level, o, d.length⟩, ?_, ?_⟩
    · simp [TilePack.tile_ref, TilePack.find_level, hinb, hent, hdlen]
    · unfold TilePack.read_tile_bytes
      rw [if_neg hdlen, hfind]
      dsimp only
      rw [if_neg (by
        show ¬ (packLevelPack tiles cols rows).length < o + d.length
        have : (packLevelPack tiles cols rows).length =
            (packCells tiles (gridCells cols rows) 0).2.length := rfl
        omega)]
      exact congrArg Except.ok hslice

/-- Witness for the amended C4: the 1×1 grid holding one 3-byte tile file. -/
theorem claim_C4_witness :
    ∃ p : ParsedLevel,
      LevelPack.parse 0 (packLevelIdx sampleTileDir 1 1)
        (packLevelPack sampleTileDir 1 1).length = .ok p ∧
      p.cols = 1 ∧ p.rows = 1 ∧
      ∀ col row, col < 1 → row < 1 →
        ((sampleTileDir col row = none ∨ sampleTileDir col row = some []) →
          TilePack.tile_ref [⟨p, packLevelPack sampleTileDir 1 1⟩] 0 col row = none) ∧
        (∀ d, sampleTileDir col row = some d → d ≠ [] →
          ∃ tr, TilePack.tile_ref [⟨p, packLevelPack sampleTileDir 1 1⟩] 0 col row
              = some tr ∧
            TilePack.read_tile_bytes [⟨p, packLevelPack sampleTileDir 1 1⟩] tr
              = .ok d) :=
  claim_C4 0 1 1 sampleTileDir (by norm_num) (by norm_num) (by norm_num) (by norm_num)
    (by
      intro c r d hc hr h
      have hc0 : c = 0 := by omega
      have hr0 : r = 0 := by omega
      subst hc0
      subst hr0
      simp [sampleTileDir] at h
      subst h
      norm_num)
    (by norm_num [packLevelPack, packCells, gridCells, sampleTileDir])

/-- Claim C10: when the level selected for the viewport's scale does not occur
in the metadata's level list, both `visible_tiles` and `prefetch_tiles` return
the empty list. -/
theorem claim_C10 (cfg : PrefetchConfig) (m : SlideMetadata) (v : Viewport)
    (cached : TileCoord → Bool)
    (h : m.get_level (level_for_scale m v.scale) = none) :
    visible_tiles m v = [] ∧ prefetch_tiles cfg m v cached = [] := by
  constructor
  · unfold visible_tiles
    rw [h]
  · unfold prefetch_tiles
    rw [h]

/-- Witness for C10: metadata whose only level is numbered 1 while scale 2
selects the fallback level 0, which does not exist. -/
theorem claim_C10_witness :
    visible_tiles gapMetadata ⟨0, 0, 10, 10, 2, 0, 0⟩ = [] ∧
      prefetch_tiles PrefetchConfig.defaultConfig gapMetadata ⟨0, 0, 10, 10, 2, 0, 0⟩
        (fun _ => false) = [] := by
  refine claim_C10 PrefetchConfig.defaultConfig gapMetadata ⟨0, 0, 10, 10, 2, 0, 0⟩
    (fun _ => false) ?_
  norm_num [level_for_scale, gapMetadata, SlideMetadata.get_level, List.filter, List.max?,
    List.find?]

theorem writeRange_length (out src : List Nat) (start : Nat)
    (h : start + src.length ≤ out.length) :
    (writeRange out start src).length = out.length := by
  unfold writeRange
  simp [List.length_take, List.length_drop]
  omega

theorem writeRange_get (out src : List Nat) (start i : Nat)
    (h : start + src.length ≤ out.length) :
    (writeRange out start src).get? i =
      if start ≤ i ∧ i < start + src.length then src.get? (i - start)
      else out.get? i := by
  unfold writeRange
  by_cases h1 : i < start
  · rw [if_neg (by omega)]
    rw [List.get?_append (by rw [List.length_take]; omega)]
    exact List.get?_take h1
  · by_cases h2 : i < start + src.length
    · rw [if_pos ⟨by omega, h2⟩]
      rw [List.get?_append_right (by rw [List.length_take]; omega)]
      rw [List.length_take]
      have hmin : min start out.length = start := by omega
      rw [hmin]
      exact List.get?_append (by omega)
    · rw [if_neg (by omega)]
      rw [List.get?_append_right (by rw [List.length_take]; omega)]
      rw [List.length_take]
      have hmin : min start out.length = start := by omega
      rw [hmin]
      rw [List.get?_append_right (by omega)]
      rw [List.get?_drop]
      congr 1
      omega

theorem index2d_mem_iff (w dst_x cw px k r0 py : Nat) (hpx : px < w) (hk : k < 3)
    (hcw : dst_x + cw ≤ w) :
    ((r0 * w + dst_x) * 3 ≤ (py * w + px) * 3 + k ∧
      (py * w + px) * 3 + k < (r0 * w + dst_x) * 3 + cw * 3) ↔
      (py = r0 ∧ dst_x ≤ px ∧ px < dst_x + cw) := by
  constructor
  · rintro ⟨h1, h2⟩
    have hA : r0 * w + dst_x ≤ py * w + px := by omega
    have hB : py * w + px < r0 * w + dst_x + cw := by omega
    have hpyr0 : py = r0 := by
      by_contra hne
      rcases Nat.lt_or_ge py r0 with hlt | hge
      · have hstep : py * w + w ≤ r0 * w := by
          calc py * w + w = (py + 1) * w := by ring
          _ ≤ r0 * w := Nat.mul_le_mul_right w (Nat.succ_le_of_lt hlt)
        omega
      · have hgt : r0 < py := by omega
        have hstep : r0 * w + w ≤ py * w := by
          calc r0 * w + w = (r0 + 1) * w := by ring
          _ ≤ py * w := Nat.mul_le_mul_right w (Nat.succ_le_of_lt hgt)
        omega
    subst hpyr0
    constructor
    · rfl
    constructor
    · omega
    · omega
  · rintro ⟨rfl, hx1, hx2⟩
    constructor
    · omega
    · omega

theorem blitTile_succ (out tbytes : List Nat) (w tile_w sx sy dx dy cw ch : Nat) :
    blitTile out w tbytes tile_w sx sy dx dy cw (ch + 1) =
      writeRange (blitTile out w tbytes tile_w sx sy dx dy cw ch)
        (((dy + ch) * w + dx) * 3)
        ((tbytes.drop (((sy + ch) * tile_w + sx) * 3)).take (cw * 3)) := by
  unfold blitTile
  rw [List.range_succ, List.foldl_append]
  rfl

theorem blitTile_spec (tbytes : List Nat) (w tile_w sx sy dx dy cw : Nat)
    (hcww : dx + cw ≤ w) :
    ∀ (ch : Nat) (out : List Nat),
      (∀ row, row < ch → ((sy + row) * tile_w + sx) * 3 + cw * 3 ≤ tbytes.length) →
      (∀ row, row < ch → ((dy + row) * w + dx) * 3 + cw * 3 ≤ out.length) →
      (blitTile out w tbytes tile_w sx sy dx dy cw ch).length = out.length ∧
      ∀ px py k, px < w → k < 3 →
        (blitTile out w tbytes tile_w sx sy dx dy cw ch).get? ((py * w + px) * 3 + k) =
          if dx ≤ px ∧ px < dx + cw ∧ dy ≤ py ∧ py < dy + ch then
            tbytes.get? (((sy + (py - dy)) * tile_w + (sx + (px - dx))) * 3 + k)
          else out.get? ((py * w + px) * 3 + k) := by
  intro ch
  induction ch with
  | zero =>
    intro out hsrc hout
    constructor
    · rfl
    · intro px py k hpx hk
      rw [if_neg (by omega)]
      rfl
  | succ ch ih =>
    intro out hsrc hout
    obtain ⟨ihlen, ihget⟩ := ih out (fun row hr => hsrc row (by omega))
      (fun row hr => hout row (by omega))
    have hsrclen : ((tbytes.drop (((sy + ch) * tile_w + sx) * 3)).take (cw * 3)).length
        = cw * 3 := by
      rw [List.length_take, List.length_drop]
      have := hsrc ch (by omega)
      omega
    have hwlen : (((dy + ch) * w + dx) * 3) +
        ((tbytes.drop (((sy + ch) * tile_w + sx) * 3)).take (cw * 3)).length ≤
        (blitTile out w tbytes tile_w sx sy dx dy cw ch).length := by
      rw [hsrclen, ihlen]
      have := hout ch (by omega)
      omega
    constructor
    · rw [blitTile_succ, writeRange_length _ _ _ hwlen, ihlen]
    · intro px py k hpx hk
      rw [blitTile_succ, writeRange_get _ _ _ _ hwlen, hsrclen]
      by_cases hin : ((dy + ch) * w + dx) * 3 ≤ (py * w + px) * 3 + k ∧
          (py * w + px) * 3 + k < ((dy + ch) * w + dx) * 3 + cw * 3
      · obtain ⟨hpy, hx1, hx2⟩ :=
          (index2d_mem_iff w dx cw px k (dy + ch) py hpx hk hcww).mp hin
        rw [if_pos hin]
        rw [if_pos (by omega)]
        have hidx : (py * w + px) * 3 + k - ((dy + ch) * w + dx) * 3 =
            (px - dx) * 3 + k := by
          subst hpy
          have h3 : ((dy + ch) * w + px) * 3 = ((dy + ch) * w + dx) * 3 + (px - dx) * 3 := by
            have hsplit : (dy + ch) * w + px = ((dy + ch) * w + dx) + (px - dx) := by omega
            rw [hsplit]
            ring
          omega
        rw [hidx]
        rw [List.get?_take (by omega)]
        rw [List.get?_drop]
        congr 1
        subst hpy
        have hpyd : dy + ch - dy = ch := by omega
        rw [hpyd]
        omega
      · rw [if_neg hin]
        rw [ihget px py k hpx hk]
        by_cases hc : dx ≤ px ∧ px < dx + cw ∧ dy ≤ py ∧ py < dy + ch
        · rw [if_pos hc, if_pos (by omega)]
        · rw [if_neg hc]
          rw [if_neg (by
            intro hcc
            obtain ⟨a1, a2, a3, a4⟩ := hcc
            have hpyne : py ≠ dy + ch := by
              intro he
              exact hin ((index2d_mem_iff w dx cw px k (dy + ch) py hpx hk hcww).mpr
                ⟨he, a1, a2⟩)
            exact hc ⟨a1, a2, a3, by omega⟩)]

theorem get?_eq_some_getD (l : List Nat) (i : Nat) (h : i < l.length) :
    l.get? i = some (l.getD i 255) := by
  rw [List.getD_eq_getD_get?]
  cases hg : l.get? i with
  | none =>
    rw [List.get?_eq_none] at hg
    omega
  | some v => rfl

theorem cell_window_iff_nat (ts cN tw axN : Nat) (_hts : 0 < ts) (htw : tw ≤ ts) :
    (cN * ts ≤ axN ∧ axN < cN * ts + tw) ↔ (axN / ts = cN ∧ axN % ts < tw) := by
  constructor
  · rintro ⟨h1, h2⟩
    have hdiv : axN / ts = cN := by
      apply Nat.div_eq_of_lt_le
      · exact h1
      · calc axN < cN * ts + tw := h2
        _ ≤ cN * ts + ts := by omega
        _ = (cN + 1) * ts := by ring
    refine ⟨hdiv, ?_⟩
    have h3 := Nat.mod_add_div axN ts
    rw [hdiv] at h3
    have hcomm : ts * cN = cN * ts := Nat.mul_comm ts cN
    omega
  · rintro ⟨h1, h2⟩
    have h3 := Nat.mod_add_div axN ts
    rw [h1] at h3
    have hcomm : ts * cN = cN * ts := Nat.mul_comm ts cN
    omega

theorem intRange_mem (a b v : Int) : v ∈ intRange a b ↔ a ≤ v ∧ v < b := by
  unfold intRange
  rw [List.mem_map]
  constructor
  · rintro ⟨i, hi, rfl⟩
    rw [List.mem_range] at hi
    exact ⟨by omega, by omega⟩
  · rintro ⟨h1, h2⟩
    exact ⟨(v - a).toNat, List.mem_range.mpr (by omega), by omega⟩

theorem coveredPix_append (tileAt : Nat → Nat → Option DecodedTile) (ts : Nat)
    (x y : Int) (done : List (Int × Int)) (cell : Int × Int) (px py k : Nat)
    (hnc : ¬ CellCovers tileAt ts x y cell px py) :
    coveredPix tileAt ts x y (done ++ [cell]) px py k =
      coveredPix tileAt ts x y done px py k := by
  unfold coveredPix
  by_cases hneg : x + (px : Int) < 0 ∨ y + (py : Int) < 0
  · simp only [if_pos hneg]
  · simp only [if_neg hneg]
    cases htile : tileAt ((x + (px : Int)).toNat / ts) ((y + (py : Int)).toNat / ts) with
    | none => rfl
    | some t =>
      by_cases hio : (x + (px : Int)).toNat % ts < t.w ∧ (y + (py : Int)).toNat % ts < t.h
      · have hnotcell : ((((x + (px : Int)).toNat / ts : Nat) : Int),
            (((y + (py : Int)).toNat / ts : Nat) : Int)) ≠ cell := by
          intro heq
          apply hnc
          refine ⟨by omega, by omega, ?_, ?_, t, htile, hio.1, hio.2⟩
          · rw [← heq]
          · rw [← heq]
        by_cases hmem : ((((x + (px : Int)).toNat / ts : Nat) : Int),
            (((y + (py : Int)).toNat / ts : Nat) : Int)) ∈ done
        · simp only [if_pos (And.intro (List.mem_append_left _ hmem) hio),
            if_pos (And.intro hmem hio)]
        · have hm2 : ¬ (((((x + (px : Int)).toNat / ts : Nat) : Int),
              (((y + (py : Int)).toNat / ts : Nat) : Int)) ∈ done ++ [cell] ∧
              (x + (px : Int)).toNat % ts < t.w ∧ (y + (py : Int)).toNat % ts < t.h) := by
            intro hcc
            rcases List.mem_append.mp hcc.1 with hd | hc
            · exact hmem hd
            · simp only [List.mem_singleton] at hc
              exact hnotcell hc
          have hm1 : ¬ (((((x + (px : Int)).toNat / ts : Nat) : Int),
              (((y + (py : Int)).toNat / ts : Nat) : Int)) ∈ done ∧
              (x + (px : Int)).toNat % ts < t.w ∧ (y + (py : Int)).toNat % ts < t.h) := by
            intro hcc
            exact hmem hcc.1
          simp only [if_neg hm2, if_neg hm1]
      · have hm2 : ∀ dl : List (Int × Int), ¬ (((((x + (px : Int)).toNat / ts : Nat) : Int),
            (((y + (py : Int)).toNat / ts : Nat) : Int)) ∈ dl ∧
            (x + (px : Int)).toNat % ts < t.w ∧ (y + (py : Int)).toNat % ts < t.h) := by
          intro dl hcc
          exact hio hcc.2
        simp only [if_neg (hm2 (done ++ [cell])), if_neg (hm2 done)]

theorem coveredPix_covers (tileAt : Nat → Nat → Option DecodedTile) (ts : Nat)
    (x y : Int) (done : List (Int × Int)) (cell : Int × Int) (px py k : Nat)
    (t : DecodedTile)
    (hc : CellCovers tileAt ts x y cell px py)
    (hmem : cell ∈ done)
    (htile : tileAt ((x + (px : Int)).toNat / ts) ((y + (py : Int)).toNat / ts) = some t) :
    coveredPix tileAt ts x y done px py k =
      t.bytes.getD (((y + (py : Int)).toNat % ts * t.w +
        (x + (px : Int)).toNat % ts) * 3 + k) 255 := by
  obtain ⟨hax, hay, hcx, hcy, t2, ht2, hox, hoy⟩ := hc
  rw [ht2] at htile
  obtain rfl : t2 = t := Option.some.inj htile
  have hmem2 : ((((x + (px : Int)).toNat / ts : Nat) : Int),
      (((y + (py : Int)).toNat / ts : Nat) : Int)) ∈ done := by
    have hcell : cell = ((((x + (px : Int)).toNat / ts : Nat) : Int),
        (((y + (py : Int)).toNat / ts : Nat) : Int)) := by
      obtain ⟨c1, c2⟩ := cell
      simp only at hcx hcy
      rw [hcx, hcy]
    rw [← hcell]
    exact hmem
  unfold coveredPix
  rw [if_neg (by omega)]
  rw [ht2]
  exact if_pos ⟨hmem2, hox, hoy⟩

theorem pix_index_lt (tw th ox oy k : Nat) (hox : ox < tw) (hoy : oy < th) (hk : k < 3) :
    (oy * tw + ox) * 3 + k < 3 * tw * th := by
  have h1 : oy * tw + ox + 1 ≤ th * tw := by
    have h2 : (oy + 1) * tw ≤ th * tw := Nat.mul_le_mul_right _ (by omega)
    have h3 : (oy + 1) * tw = oy * tw + tw := by ring
    omega
  calc (oy * tw + ox) * 3 + k < (oy * tw + ox + 1) * 3 := by omega
  _ ≤ (th * tw) * 3 := Nat.mul_le_mul_right 3 h1
  _ = 3 * tw * th := by ring

theorem row_bound (tw th sx sy row chh cw : Nat) (hrow : row < chh)
    (hsc : sx + cw ≤ tw) (hyc : sy + chh ≤ th) :
    ((sy + row) * tw + sx) * 3 + cw * 3 ≤ 3 * tw * th := by
  have h1 : (sy + row) * tw + sx + cw ≤ (sy + row + 1) * tw := by
    have h3 : (sy + row + 1) * tw = (sy + row) * tw + tw := by ring
    omega
  have h2 : (sy + row + 1) * tw ≤ th * tw := Nat.mul_le_mul_right _ (by omega)
  calc ((sy + row) * tw + sx) * 3 + cw * 3 = ((sy + row) * tw + sx + cw) * 3 := by ring
  _ ≤ (th * tw) * 3 := Nat.mul_le_mul_right 3 (le_trans h1 h2)
  _ = 3 * tw * th := by ring

set_option maxHeartbeats 2000000 in
theorem regionStep_spec
    (tileAt : Nat → Nat → Option DecodedTile) (ts : Nat) (hts : 0 < ts)
    (htiles : ∀ c r t, tileAt c r = some t →
      t.bytes.length = 3 * t.w * t.h ∧ t.w ≤ ts ∧ t.h ≤ ts)
    (x y : Int) (w h : Nat)
    (c r : Int) (done : List (Int × Int)) (out : List Nat)
    (hlen : out.length = w * h * 3)
    (hval : ∀ px py k, px < w → py < h → k < 3 →
      out.get? ((py * w + px) * 3 + k) =
        some (coveredPix tileAt ts x y done px py k)) :
    (regionStep tileAt (ts : Int) x y (x + (w : Int)) (y + (h : Int)) w out (c, r)).length
        = w * h * 3 ∧
    ∀ px py k, px < w → py < h → k < 3 →
      (regionStep tileAt (ts : Int) x y (x + (w : Int)) (y + (h : Int)) w out (c, r)).get?
          ((py * w + px) * 3 + k) =
        some (coveredPix tileAt ts x y (done ++ [(c, r)]) px py k) := by
  by_cases hneg : c < 0 ∨ r < 0
  · have hstep : regionStep tileAt (ts : Int) x y (x + (w : Int)) (y + (h : Int)) w out
        (c, r) = out := by
      unfold regionStep
      exact if_pos hneg
    rw [hstep]
    refine ⟨hlen, fun px py k hpx hpy hk => ?_⟩
    rw [hval px py k hpx hpy hk]
    congr 1
    symm
    apply coveredPix_append
    rintro ⟨hax, hay, hcx, hcy, -⟩
    simp only at hcx hcy
    have hq1 : (0 : Int) ≤ (((x + (px : Int)).toNat / ts : Nat) : Int) :=
      Int.natCast_nonneg _
    have hq2 : (0 : Int) ≤ (((y + (py : Int)).toNat / ts : Nat) : Int) :=
      Int.natCast_nonneg _
    omega
  · push_neg at hneg
    obtain ⟨hc0, hr0⟩ := hneg
    cases htile : tileAt c.toNat r.toNat with
    | none =>
      have hstep : regionStep tileAt (ts : Int) x y (x + (w : Int)) (y + (h : Int)) w out
          (c, r) = out := by
        unfold regionStep
        rw [if_neg (by omega)]
        dsimp only
        rw [htile]
      rw [hstep]
      refine ⟨hlen, fun px py k hpx hpy hk => ?_⟩
      rw [hval px py k hpx hpy hk]
      congr 1
      symm
      apply coveredPix_append
      rintro ⟨hax, hay, hcx, hcy, t, ht, -⟩
      simp only at hcx hcy
      have hcn : c.toNat = (x + (px : Int)).toNat / ts := by omega
      have hrn : r.toNat = (y + (py : Int)).toNat / ts := by omega
      rw [hcn, hrn, ht] at htile
      simp at htile
    | some t =>
      obtain ⟨hblen, htwts, hthts⟩ := htiles c.toNat r.toNat t htile
      by_cases hdim : t.w = 0 ∨ t.h = 0
      · have hstep : regionStep tileAt (ts : Int) x y (x + (w : Int)) (y + (h : Int)) w out
            (c, r) = out := by
          unfold regionStep
          rw [if_neg (by omega)]
          dsimp only
          rw [htile]
          dsimp only
          rw [if_pos hdim]
        rw [hstep]
        refine ⟨hlen, fun px py k hpx hpy hk => ?_⟩
        rw [hval px py k hpx hpy hk]
        congr 1
        symm
        apply coveredPix_append
        rintro ⟨hax, hay, hcx, hcy, t2, ht2, hox, hoy⟩
        simp only at hcx hcy
        have hcn : c.toNat = (x + (px : Int)).toNat / ts := by omega
        have hrn : r.toNat = (y + (py : Int)).toNat / ts := by omega
        rw [hcn, hrn, ht2] at htile
        obtain rfl : t = t2 := (Option.some.inj htile).symm
        omega
      · push_neg at hdim
        obtain ⟨htw0, hth0⟩ := hdim
        -- cast bookkeeping
        have hc' : ((c.toNat : Nat) : Int) = c := Int.toNat_of_nonneg hc0
        have hr' : ((r.toNat : Nat) : Int) = r := Int.toNat_of_nonneg hr0
        have hcts : c * (ts : Int) = ((c.toNat * ts : Nat) : Int) := by
          push_cast
          rw [hc']
        have hrts : r * (ts : Int) = ((r.toNat * ts : Nat) : Int) := by
          push_cast
          rw [hr']
        by_cases hint : min (x + (w : Int)) (c * (ts : Int) + (t.w : Int)) ≤
              max x (c * (ts : Int)) ∨
            min (y + (h : Int)) (r * (ts : Int) + (t.h : Int)) ≤ max y (r * (ts : Int))
        · have hstep : regionStep tileAt (ts : Int) x y (x + (w : Int)) (y + (h : Int)) w out
              (c, r) = out := by
            unfold regionStep
            rw [if_neg (by omega)]
            dsimp only
            rw [htile]
            dsimp only
            rw [if_neg (by omega)]
            rw [if_pos hint]
          rw [hstep]
          refine ⟨hlen, fun px py k hpx hpy hk => ?_⟩
          rw [hval px py k hpx hpy hk]
          congr 1
          symm
          apply coveredPix_append
          rintro ⟨hax, hay, hcx, hcy, t2, ht2, hox, hoy⟩
          simp only at hcx hcy
          have hcn : c.toNat = (x + (px : Int)).toNat / ts := by omega
          have hrn : r.toNat = (y + (py : Int)).toNat / ts := by omega
          rw [hcn, hrn, ht2] at htile
          obtain rfl : t = t2 := (Option.some.inj htile).symm
          -- the pixel witnesses a nonempty intersection, contradicting hint
          have hdx := (cell_window_iff_nat ts ((x + (px : Int)).toNat / ts) t.w
            (x + (px : Int)).toNat hts htwts).mpr ⟨rfl, hox⟩
          have hdy := (cell_window_iff_nat ts ((y + (py : Int)).toNat / ts) t.h
            (y + (py : Int)).toNat hts hthts).mpr ⟨rfl, hoy⟩
          rw [← hcn] at hdx
          rw [← hrn] at hdy
          have hax2 : ((x + (px : Int)).toNat : Int) = x + (px : Int) :=
            Int.toNat_of_nonneg hax
          have hay2 : ((y + (py : Int)).toNat : Int) = y + (py : Int) :=
            Int.toNat_of_nonneg hay
          rcases hint with hx | hy
          · have h1 : ((c.toNat * ts : Nat) : Int) ≤ x + (px : Int) := by
              rw [← hax2]
              exact_mod_cast Int.ofNat_le.mpr hdx.1
            have h2 : x + (px : Int) < ((c.toNat * ts : Nat) : Int) + t.w := by
              rw [← hax2]
              push_cast
              exact_mod_cast hdx.2
            rw [hcts] at hx
            have hle1 : min (x + (w : Int)) (((c.toNat * ts : Nat) : Int) + (t.w : Int)) ≤
                max x ((c.toNat * ts : Nat) : Int) := hx
            have hmax1 : max x ((c.toNat * ts : Nat) : Int) ≤ x + (px : Int) := by
              apply max_le
              · omega
              · exact h1
            have hmin1 : x + (px : Int) < min (x + (w : Int))
                (((c.toNat * ts : Nat) : Int) + (t.w : Int)) := by
              apply lt_min
              · omega
              · exact h2
            omega
          · have h1 : ((r.toNat * ts : Nat) : Int) ≤ y + (py : Int) := by
              rw [← hay2]
              exact_mod_cast Int.ofNat_le.mpr hdy.1
            have h2 : y + (py : Int) < ((r.toNat * ts : Nat) : Int) + t.h := by
              rw [← hay2]
              push_cast
              exact_mod_cast hdy.2
            rw [hrts] at hy
            have hmax1 : max y ((r.toNat * ts : Nat) : Int) ≤ y + (py : Int) := by
              apply max_le
              · omega
              · exact h1
            have hmin1 : y + (py : Int) < min (y + (h : Int))
                (((r.toNat * ts : Nat) : Int) + (t.h : Int)) := by
              apply lt_min
              · omega
              · exact h2
            omega
        · -- nonempty intersection: the cell is blitted
          have hstep : regionStep tileAt (ts : Int) x y (x + (w : Int)) (y + (h : Int)) w out
              (c, r) =
              blitTile out w t.bytes t.w
                (max x (c * (ts : Int)) - c * (ts : Int)).toNat
                (max y (r * (ts : Int)) - r * (ts : Int)).toNat
                (max x (c * (ts : Int)) - x).toNat
                (max y (r * (ts : Int)) - y).toNat
                (min (x + (w : Int)) (c * (ts : Int) + (t.w : Int)) -
                  max x (c * (ts : Int))).toNat
                (min (y + (h : Int)) (r * (ts : Int) + (t.h : Int)) -
                  max y (r * (ts : Int))).toNat := by
            unfold regionStep
            rw [if_neg (by omega)]
            dsimp only
            rw [htile]
            dsimp only
            rw [if_neg (by omega)]
            rw [if_neg hint]
          rw [hstep]
          set SX := (max x (c * (ts : Int)) - c * (ts : Int)).toNat with hSX
          set SY := (max y (r * (ts : Int)) - r * (ts : Int)).toNat with hSY
          set DX := (max x (c * (ts : Int)) - x).toNat with hDX
          set DY := (max y (r * (ts : Int)) - y).toNat with hDY
          set CW := (min (x + (w : Int)) (c * (ts : Int) + (t.w : Int)) -
            max x (c * (ts : Int))).toNat with hCW
          set CH := (min (y + (h : Int)) (r * (ts : Int) + (t.h : Int)) -
            max y (r * (ts : Int))).toNat with hCH
          have hA0 : (0 : Int) ≤ c * (ts : Int) := by
            rw [hcts]
            exact Int.natCast_nonneg _
          have hB0 : (0 : Int) ≤ r * (ts : Int) := by
            rw [hrts]
            exact Int.natCast_nonneg _
          have hcww : DX + CW ≤ w := by omega
          have hsxcw : SX + CW ≤ t.w := by omega
          have hsych : SY + CH ≤ t.h := by omega
          have hdych : DY + CH ≤ h := by omega
          have hsrc : ∀ row, row < CH →
              ((SY + row) * t.w + SX) * 3 + CW * 3 ≤ t.bytes.length := by
            intro row hrow
            rw [hblen]
            exact row_bound t.w t.h SX SY row CH CW hrow hsxcw hsych
          have hout : ∀ row, row < CH →
              ((DY + row) * w + DX) * 3 + CW * 3 ≤ out.length := by
            intro row hrow
            rw [hlen]
            have hb := row_bound w h DX DY row CH CW hrow hcww hdych
            have he : 3 * w * h = w * h * 3 := by ring
            omega
          obtain ⟨hblen2, hbget⟩ :=
            blitTile_spec t.bytes w t.w SX SY DX DY CW hcww CH out hsrc hout
          constructor
          · rw [hblen2]
            exact hlen
          · intro px py k hpx hpy hk
            rw [hbget px py k hpx hk]
            by_cases hwin : DX ≤ px ∧ px < DX + CW ∧ DY ≤ py ∧ py < DY + CH
            · rw [if_pos hwin]
              obtain ⟨hw1, hw2, hw3, hw4⟩ := hwin
              have hax0 : (0 : Int) ≤ x + (px : Int) := by omega
              have hay0 : (0 : Int) ≤ y + (py : Int) := by omega
              have hwx : c.toNat * ts ≤ (x + (px : Int)).toNat ∧
                  (x + (px : Int)).toNat < c.toNat * ts + t.w := by omega
              have hwy : r.toNat * ts ≤ (y + (py : Int)).toNat ∧
                  (y + (py : Int)).toNat < r.toNat * ts + t.h := by omega
              have hdx2 := (cell_window_iff_nat ts c.toNat t.w
                (x + (px : Int)).toNat hts htwts).mp hwx
              have hdy2 := (cell_window_iff_nat ts r.toNat t.h
                (y + (py : Int)).toNat hts hthts).mp hwy
              have htile2 : tileAt ((x + (px : Int)).toNat / ts)
                  ((y + (py : Int)).toNat / ts) = some t := by
                rw [hdx2.1, hdy2.1]
                exact htile
              have hcov : CellCovers tileAt ts x y (c, r) px py := by
                refine ⟨hax0, hay0, ?_, ?_, t, htile2, hdx2.2, hdy2.2⟩
                · simp only
                  rw [hdx2.1]
                  exact hc'.symm
                · simp only
                  rw [hdy2.1]
                  exact hr'.symm
              rw [coveredPix_covers tileAt ts x y (done ++ [(c, r)]) (c, r) px py k t
                hcov (List.mem_append_right _ (List.mem_singleton.mpr rfl)) htile2]
              have hsxe : SX + (px - DX) = (x + (px : Int)).toNat % ts := by
                have hm := Nat.mod_add_div (x + (px : Int)).toNat ts
                rw [hdx2.1] at hm
                have hco : ts * c.toNat = c.toNat * ts := Nat.mul_comm ts c.toNat
                omega
              have hsye : SY + (py - DY) = (y + (py : Int)).toNat % ts := by
                have hm := Nat.mod_add_div (y + (py : Int)).toNat ts
                rw [hdy2.1] at hm
                have hco : ts * r.toNat = r.toNat * ts := Nat.mul_comm ts r.toNat
                omega
              rw [hsxe, hsye]
              apply get?_eq_some_getD
              rw [hblen]
              exact pix_index_lt t.w t.h ((x + (px : Int)).toNat % ts)
                ((y + (py : Int)).toNat % ts) k hdx2.2 hdy2.2 hk
            · rw [if_neg hwin]
              rw [hval px py k hpx hpy hk]
              congr 1
              symm
              apply coveredPix_append
              rintro ⟨hax, hay, hcx, hcy, t2, ht2, hox, hoy⟩
              simp only at hcx hcy
              have hq1 : (0 : Int) ≤ (((x + (px : Int)).toNat / ts : Nat) : Int) :=
                Int.natCast_nonneg _
              have hq2 : (0 : Int) ≤ (((y + (py : Int)).toNat / ts : Nat) : Int) :=
                Int.natCast_nonneg _
              have hcn : c.toNat = (x + (px : Int)).toNat / ts := by omega
              have hrn : r.toNat = (y + (py : Int)).toNat / ts := by omega
              rw [hcn, hrn, ht2] at htile
              obtain rfl : t = t2 := (Option.some.inj htile).symm
              have hwx := (cell_window_iff_nat ts ((x + (px : Int)).toNat / ts) t.w
                (x + (px : Int)).toNat hts htwts).mpr ⟨rfl, hox⟩
              have hwy := (cell_window_iff_nat ts ((y + (py : Int)).toNat / ts) t.h
                (y + (py : Int)).toNat hts hthts).mpr ⟨rfl, hoy⟩
              rw [← hcn] at hwx
              rw [← hrn] at hwy
              exact absurd ⟨by omega, by omega, by omega, by omega⟩ hwin

theorem div_floor_eq_div (a b : Int) : div_floor a b = a / b := rfl

theorem replicate_get? (n i a : Nat) (h : i < n) :
    (List.replicate n a).get? i = some a := by
  rw [List.get?_eq_get (by rw [List.length_replicate]; exact h)]
  rw [List.get_replicate]

theorem regionFold_spec
    (tileAt : Nat → Nat → Option DecodedTile) (ts : Nat) (hts : 0 < ts)
    (htiles : ∀ c r t, tileAt c r = some t →
      t.bytes.length = 3 * t.w * t.h ∧ t.w ≤ ts ∧ t.h ≤ ts)
    (x y : Int) (w h : Nat) :
    ∀ (cells : List (Int × Int)) (done : List (Int × Int)) (out : List Nat),
      out.length = w * h * 3 →
      (∀ px py k, px < w → py < h → k < 3 →
        out.get? ((py * w + px) * 3 + k) =
          some (coveredPix tileAt ts x y done px py k)) →
      (cells.foldl (regionStep tileAt (ts : Int) x y (x + (w : Int)) (y + (h : Int)) w)
          out).length = w * h * 3 ∧
      ∀ px py k, px < w → py < h → k < 3 →
        (cells.foldl (regionStep tileAt (ts : Int) x y (x + (w : Int)) (y + (h : Int)) w)
            out).get? ((py * w + px) * 3 + k) =
          some (coveredPix tileAt ts x y (done ++ cells) px py k) := by
  intro cells
  induction cells with
  | nil =>
    intro done out hlen hval
    refine ⟨hlen, fun px py k hpx hpy hk => ?_⟩
    rw [List.append_nil]
    exact hval px py k hpx hpy hk
  | cons cell rest ih =>
    intro done out hlen hval
    obtain ⟨c, r⟩ := cell
    obtain ⟨h1, h2⟩ := regionStep_spec tileAt ts hts htiles x y w h c r done out hlen hval
    rw [List.foldl_cons]
    have hrw : done ++ (c, r) :: rest = (done ++ [(c, r)]) ++ rest := by
      rw [List.append_assoc, List.singleton_append]
    rw [hrw]
    exact ih (done ++ [(c, r)]) _ h1 h2

theorem coveredPix_nil (tileAt : Nat → Nat → Option DecodedTile) (ts : Nat)
    (x y : Int) (px py k : Nat) :
    coveredPix tileAt ts x y [] px py k = 255 := by
  unfold coveredPix
  by_cases hneg : x + (px : Int) < 0 ∨ y + (py : Int) < 0
  · rw [if_pos hneg]
  · rw [if_neg hneg]
    cases htA : tileAt ((x + (px : Int)).toNat / ts) ((y + (py : Int)).toNat / ts) with
    | none => rfl
    | some t =>
      dsimp only
      rw [if_neg]
      simp

theorem cover_mem_cells (tileAt : Nat → Nat → Option DecodedTile) (ts : Nat)
    (x y : Int) (w h : Nat) (hts : 0 < ts) (px py : Nat)
    (hpx : px < w) (hpy : py < h) (cell : Int × Int)
    (hcov : CellCovers tileAt ts x y cell px py) :
    cell ∈ (intRange (div_floor y (ts : Int))
        (div_floor (y + (h : Int) - 1) (ts : Int) + 1)).flatMap
      (fun r => (intRange (div_floor x (ts : Int))
          (div_floor (x + (w : Int) - 1) (ts : Int) + 1)).map
        (fun c => (c, r))) := by
  obtain ⟨hax, hay, hcx, hcy, -⟩ := hcov
  obtain ⟨cc, cr⟩ := cell
  simp only at hcx hcy
  subst hcx
  subst hcy
  have hts' : (0 : Int) < (ts : Int) := by omega
  have hex : (((x + (px : Int)).toNat / ts : Nat) : Int) = (x + (px : Int)) / (ts : Int) := by
    rw [Int.ofNat_ediv]
    rw [Int.toNat_of_nonneg hax]
  have hey : (((y + (py : Int)).toNat / ts : Nat) : Int) = (y + (py : Int)) / (ts : Int) := by
    rw [Int.ofNat_ediv]
    rw [Int.toNat_of_nonneg hay]
  rw [List.mem_flatMap]
  refine ⟨(((y + (py : Int)).toNat / ts : Nat) : Int), ?_, ?_⟩
  · rw [intRange_mem]
    constructor
    · rw [div_floor_eq_div, hey]
      exact Int.ediv_le_ediv hts' (by omega)
    · rw [div_floor_eq_div, hey]
      have hle : (y + (py : Int)) / (ts : Int) ≤ (y + (h : Int) - 1) / (ts : Int) :=
        Int.ediv_le_ediv hts' (by omega)
      omega
  · rw [List.mem_map]
    refine ⟨(((x + (px : Int)).toNat / ts : Nat) : Int), ?_, rfl⟩
    rw [intRange_mem]
    constructor
    · rw [div_floor_eq_div, hex]
      exact Int.ediv_le_ediv hts' (by omega)
    · rw [div_floor_eq_div, hex]
      have hle : (x + (px : Int)) / (ts : Int) ≤ (x + (w : Int) - 1) / (ts : Int) :=
        Int.ediv_le_ediv hts' (by omega)
      omega

theorem coveredPix_complete (tileAt : Nat → Nat → Option DecodedTile) (ts : Nat)
    (x y : Int) (cells : List (Int × Int)) (px py k : Nat)
    (hcomp : ∀ cell, CellCovers tileAt ts x y cell px py → cell ∈ cells) :
    coveredPix tileAt ts x y cells px py k =
      regionPixel tileAt ts (x + (px : Int)) (y + (py : Int)) k := by
  unfold coveredPix regionPixel
  by_cases hneg : x + (px : Int) < 0 ∨ y + (py : Int) < 0
  · rw [if_pos hneg, if_pos hneg]
  · rw [if_neg hneg, if_neg hneg]
    cases htA : tileAt ((x + (px : Int)).toNat / ts) ((y + (py : Int)).toNat / ts) with
    | none => rfl
    | some t =>
      dsimp only
      by_cases hio : (x + (px : Int)).toNat % ts < t.w ∧ (y + (py : Int)).toNat % ts < t.h
      · have hmem := hcomp ((((x + (px : Int)).toNat / ts : Nat) : Int),
            (((y + (py : Int)).toNat / ts : Nat) : Int))
          ⟨by omega, by omega, rfl, rfl, t, htA, hio.1, hio.2⟩
        rw [if_pos ⟨hmem, hio⟩, if_pos hio]
      · rw [if_neg (fun hc => hio hc.2), if_neg hio]

/-- C9: for every tile oracle whose decoded tiles are well-formed (3·w·h
bytes, dimensions at most tile_size), every positive tile_size, any x, y
(possibly negative) and w, h > 0: a zero width or height is rejected with a
validation error, and otherwise decode_region_bytes succeeds with a
row-major RGB buffer of exactly w·h·3 bytes in which every pixel is 0xFF
unless its absolute coordinate falls inside a present decoded tile of the
enclosing grid cell, in which case it is that tile's decoded byte
(regionPixel); uncovered areas thus remain 0xFF. -/
theorem claim_C9 (tileAt : Nat → Nat → Option DecodedTile) (ts : Nat)
    (x y : Int) (w h : Nat) (hts : 0 < ts)
    (htiles : ∀ c r t, tileAt c r = some t →
      t.bytes.length = 3 * t.w * t.h ∧ t.w ≤ ts ∧ t.h ≤ ts)
    (hw : w ≠ 0) (hh : h ≠ 0) :
    (∀ w2 h2 : Nat, w2 = 0 ∨ h2 = 0 →
      decode_region_bytes tileAt (ts : Int) x y w2 h2 =
        .error (.validation "Region width and height must be positive")) ∧
    ∃ out, decode_region_bytes tileAt (ts : Int) x y w h = .ok out ∧
      out.length = w * h * 3 ∧
      ∀ px py k, px < w → py < h → k < 3 →
        out.get? ((py * w + px) * 3 + k) =
          some (regionPixel tileAt ts (x + (px : Int)) (y + (py : Int)) k) := by
  constructor
  · intro w2 h2 hz
    unfold decode_region_bytes
    rw [if_pos hz]
  · have hinit : ∀ px py k, px < w → py < h → k < 3 →
        (List.replicate (w * h * 3) 255).get? ((py * w + px) * 3 + k) =
          some (coveredPix tileAt ts x y [] px py k) := by
      intro px py k hpx hpy hk
      have hb := pix_index_lt w h px py k hpx hpy hk
      have he : 3 * w * h = w * h * 3 := by ring
      rw [replicate_get? (w * h * 3) ((py * w + px) * 3 + k) 255 (by omega)]
      rw [coveredPix_nil]
    obtain ⟨hlen0, hval0⟩ := regionFold_spec tileAt ts hts htiles x y w h
      ((intRange (div_floor y (ts : Int))
          (div_floor (y + (h : Int) - 1) (ts : Int) + 1)).flatMap
        (fun r => (intRange (div_floor x (ts : Int))
            (div_floor (x + (w : Int) - 1) (ts : Int) + 1)).map
          (fun c => (c, r))))
      [] (List.replicate (w * h * 3) 255) (List.length_replicate _ _) hinit
    refine ⟨_, ?_, hlen0, ?_⟩
    · unfold decode_region_bytes
      rw [if_neg (by omega)]
      rw [if_neg (by omega)]
    · intro px py k hpx hpy hk
      rw [hval0 px py k hpx hpy hk]
      congr 1
      rw [List.nil_append]
      exact coveredPix_complete tileAt ts x y _ px py k
        (fun cell hcov => cover_mem_cells tileAt ts x y w h hts px py hpx hpy cell hcov)

/-- Witness for C9 at a concrete input: tile_size 2, the one-tile oracle,
region x = -1, y = 0, w = 3, h = 1. -/
theorem claim_C9_witness :
    (∀ w2 h2 : Nat, w2 = 0 ∨ h2 = 0 →
      decode_region_bytes sampleTileAt ((2 : Nat) : Int) (-1) 0 w2 h2 =
        .error (.validation "Region width and height must be positive")) ∧
    ∃ out, decode_region_bytes sampleTileAt ((2 : Nat) : Int) (-1) 0 3 1 = .ok out ∧
      out.length = 3 * 1 * 3 ∧
      ∀ px py k, px < 3 → py < 1 → k < 3 →
        out.get? ((py * 3 + px) * 3 + k) =
          some (regionPixel sampleTileAt 2 ((-1) + (px : Int)) (0 + (py : Int)) k) :=
  claim_C9 sampleTileAt 2 (-1) 0 3 1 (by decide)
    (by
      intro c r t ht
      unfold sampleTileAt at ht
      by_cases hcr : c = 0 ∧ r = 0
      · rw [if_pos hcr] at ht
        obtain rfl : t = ⟨[1, 2, 3], 1, 1⟩ := (Option.some.inj ht).symm
        exact ⟨rfl, by decide, by decide⟩
      · rw [if_neg hcr] at ht
        exact absurd ht (by simp))
    (by decide) (by decide)

end FastPATH
